import Mathlib

/-!
# GMCAbilitySystem: the ability-effect lifecycle

A shallow embedding of `Source/GMCAbilitySystem/Private/GMCAbilityEffect.cpp`.

* Time values (`ActionTimer`, `StartTime`, `EndTime`, `Duration`, `Period`,
  `DeltaTime`) are exact rationals.
* The owning component is read through a snapshot (`UGMC_AbilityComponent`) that
  is passed to every operation; the calls an operation issues to its owner are
  returned as a list of `HostCall`s, in the order the code issues them.
* `TArray::RemoveAt` with an index outside the array is a failed range check;
  it is modelled by `none`.
-/

namespace GMCAbilitySystem

/-- Gameplay tag, identified by the index of its interned name. -/
structure FGameplayTag where
  TagName : Nat
deriving DecidableEq, Repr

/-- The tag without a name (`FGameplayTag::EmptyTag`). -/
def FGameplayTag.EmptyTag : FGameplayTag := ⟨0⟩

/-- Modelled from the spec: the enum `EEffectType` is declared in the header
`GMCAbilityEffect.h`; the spec lists its values as Instant and Duration. The
code only compares with these two values, and no proof below uses that there
is no further value. -/
inductive EEffectType where
  | Instant
  | Duration
deriving DecidableEq, Repr

/-- Modelled from the spec: the enum `EEffectState` is declared in the header
`GMCAbilityEffect.h`; the spec lists its values as Initialized, Started, Ended. -/
inductive EEffectState where
  | Initialized
  | Started
  | Ended
deriving DecidableEq, Repr

/-- Modelled from the spec: the struct `FGMCAttributeModifier` is declared in a
header; the spec describes a modifier as an attribute name with a value. The
code of `InitializeEffect` reads only `AttributeName`. -/
structure FGMCAttributeModifier where
  AttributeName : Nat
  Value : ℚ
deriving DecidableEq, Repr

/-- Modelled from the spec: the struct `FGMCAbilityEffectData` and its
`operator==` are declared in the header `GMCAbilityEffect.h`. The fields are
those `InitializeEffect` reads; per the spec the payload is the default one
when all fields are at their zero value, so equality is structural. -/
structure FGMCAbilityEffectData where
  Modifiers : List FGMCAttributeModifier
  bOverwriteExistingModifiers : Bool
  ServerStartTime : ℚ
  ServerEndTime : ℚ
  EffectID : Int
deriving DecidableEq, Repr

/-- The default-constructed payload `FGMCAbilityEffectData{}`. -/
def FGMCAbilityEffectData.Default : FGMCAbilityEffectData :=
  { Modifiers := [], bOverwriteExistingModifiers := false,
    ServerStartTime := 0, ServerEndTime := 0, EffectID := 0 }

/-- The member variables of `UGMCAbilityEffect` that the code reads or writes.
The pointer `OwnerAbilityComponent` is replaced by the snapshot of the owner
passed to each operation. -/
structure UGMCAbilityEffect where
  Id : Int
  EffectType : EEffectType
  Period : ℚ
  Duration : ℚ
  StartTime : ℚ
  EndTime : ℚ
  CurrentState : EEffectState
  bHasStarted : Bool
  bCompleted : Bool
  bServerConfirmed : Bool
  PeriodicApplicationTimer : ℚ
  Modifiers : List FGMCAttributeModifier
  GrantedTags : List FGameplayTag
  GrantedAbilities : List FGameplayTag
  MustHaveTags : List FGameplayTag
  MustNotHaveTags : List FGameplayTag
  EffectTag : FGameplayTag
deriving DecidableEq, Repr

/-- What an effect reads from its owner `UGMC_AbilityComponent`:
`HasAuthority()`, `ActionTimer`, the active tags behind `HasActiveTag` and the
map returned by `GetActiveEffects()`. -/
structure UGMC_AbilityComponent where
  bHasAuthority : Bool
  ActionTimer : ℚ
  ActiveTags : List FGameplayTag
  ActiveEffects : List (Int × UGMCAbilityEffect)
deriving Repr

/-- The calls an effect issues to its owner. -/
inductive HostCall where
  | AddActiveTag (Tag : FGameplayTag)
  | RemoveActiveTag (Tag : FGameplayTag)
  | GrantAbilityByTag (Tag : FGameplayTag)
  | RemoveGrantedAbilityByTag (Tag : FGameplayTag)
  | ApplyAbilityEffectModifiers
  | RemoveActiveAbilityModifiers
deriving DecidableEq, Repr

namespace UGMC_AbilityComponent

/-- `HasAuthority()`. -/
def HasAuthority (host : UGMC_AbilityComponent) : Bool := host.bHasAuthority

/-- `HasActiveTag(Tag)`. -/
def HasActiveTag (host : UGMC_AbilityComponent) (Tag : FGameplayTag) : Bool :=
  decide (Tag ∈ host.ActiveTags)

/-- `GetActiveEffects()`. -/
def GetActiveEffects (host : UGMC_AbilityComponent) : List (Int × UGMCAbilityEffect) :=
  host.ActiveEffects

end UGMC_AbilityComponent

/-- `TArray::RemoveAt(Index)`: removes the element at `Index`; an index outside
the array fails the range check. -/
def TArray.RemoveAt {α : Type} (xs : List α) (Index : Nat) : Option (List α) :=
  if Index < xs.length then some (xs.eraseIdx Index) else none

namespace UGMCAbilityEffect

/-- The first inner loop of `InitializeEffect` (lines 28-34): the indices, from
`i` on, of the modifiers whose `AttributeName` is `Name`, in ascending order. -/
def ExistingModifiersToRemove (Name : Nat) : Nat → List FGMCAttributeModifier → List Nat
  | _, [] => []
  | i, m :: ms =>
    if m.AttributeName = Name then i :: ExistingModifiersToRemove Name (i + 1) ms
    else ExistingModifiersToRemove Name (i + 1) ms

/-- The second inner loop of `InitializeEffect` (lines 36-39): `RemoveAt` for
each collected index, in the order collected, on the array as it then is. -/
def PurgeModifiers : List FGMCAttributeModifier → List Nat → Option (List FGMCAttributeModifier)
  | mods, [] => some mods
  | mods, i :: rest =>
    match TArray.RemoveAt mods i with
    | none => none
    | some mods1 => PurgeModifiers mods1 rest

/-- One iteration of the outer loop of `InitializeEffect` (lines 22-43). -/
def AddModifier (bOverwriteExistingModifiers : Bool) (mods : List FGMCAttributeModifier)
    (Modifier : FGMCAttributeModifier) : Option (List FGMCAttributeModifier) :=
  if bOverwriteExistingModifiers then
    match PurgeModifiers mods (ExistingModifiersToRemove Modifier.AttributeName 0 mods) with
    | none => none
    | some mods1 => some (mods1 ++ [Modifier])
  else some (mods ++ [Modifier])

/-- The outer loop of `InitializeEffect` (lines 22-43) over the payload's modifiers. -/
def AddModifiers (bOverwriteExistingModifiers : Bool) :
    List FGMCAttributeModifier → List FGMCAttributeModifier → Option (List FGMCAttributeModifier)
  | mods, [] => some mods
  | mods, Modifier :: rest =>
    match AddModifier bOverwriteExistingModifiers mods Modifier with
    | none => none
    | some mods1 => AddModifiers bOverwriteExistingModifiers mods1 rest

/-- Lines 45-82 of `InitializeEffect`: the stamping of the timing window. -/
def StampTimes (host : UGMC_AbilityComponent) (e : UGMCAbilityEffect) (bServerApplied : Bool)
    (InitializationData : FGMCAbilityEffectData) : UGMCAbilityEffect :=
  if host.HasAuthority then
    let e1 := { e with bServerConfirmed := true }
    if bServerApplied then
      { e1 with StartTime := host.ActionTimer + 1 / 4,
                EndTime := host.ActionTimer + e1.Duration + 1 / 4 }
    else
      { e1 with StartTime := host.ActionTimer,
                EndTime := host.ActionTimer + e1.Duration }
  else if InitializationData = FGMCAbilityEffectData.Default ∧ bServerApplied = false then
    { e with StartTime := host.ActionTimer,
             EndTime := host.ActionTimer + e.Duration }
  else
    { e with StartTime := InitializationData.ServerStartTime,
             EndTime := InitializationData.ServerEndTime,
             Id := InitializationData.EffectID,
             bServerConfirmed := true }

/-- `UGMCAbilityEffect::InitializeEffect` with a valid `AbilityComponent`. The
result is `none` when a `RemoveAt` of the modifier merge fails its range check. -/
def InitializeEffect (host : UGMC_AbilityComponent) (e : UGMCAbilityEffect)
    (bServerApplied : Bool) (InitializationData : FGMCAbilityEffectData) :
    Option UGMCAbilityEffect :=
  match AddModifiers InitializationData.bOverwriteExistingModifiers e.Modifiers
      InitializationData.Modifiers with
  | none => none
  | some mods => some (StampTimes host { e with Modifiers := mods } bServerApplied InitializationData)

/-- `UGMCAbilityEffect::UpdateState`. -/
def UpdateState (e : UGMCAbilityEffect) (State : EEffectState) (_Force : Bool) :
    UGMCAbilityEffect :=
  { e with CurrentState := State }

/-- `UGMCAbilityEffect::AddTagsToOwner`: the calls issued. -/
def AddTagsToOwner (e : UGMCAbilityEffect) : List HostCall :=
  e.GrantedTags.map HostCall.AddActiveTag

/-- `UGMCAbilityEffect::RemoveTagsFromOwner`: the calls issued. -/
def RemoveTagsFromOwner (e : UGMCAbilityEffect) : List HostCall :=
  e.GrantedTags.map HostCall.RemoveActiveTag

/-- `UGMCAbilityEffect::AddAbilitiesToOwner`: the calls issued. -/
def AddAbilitiesToOwner (e : UGMCAbilityEffect) : List HostCall :=
  e.GrantedAbilities.map HostCall.GrantAbilityByTag

/-- `UGMCAbilityEffect::RemoveAbilitiesFromOwner`: the calls issued. -/
def RemoveAbilitiesFromOwner (e : UGMCAbilityEffect) : List HostCall :=
  e.GrantedAbilities.map HostCall.RemoveGrantedAbilityByTag

/-- `UGMCAbilityEffect::CheckMustHaveTags`. -/
def CheckMustHaveTags (host : UGMC_AbilityComponent) (e : UGMCAbilityEffect) : Bool :=
  e.MustHaveTags.all (fun Tag => host.HasActiveTag Tag)

/-- `UGMCAbilityEffect::CheckMustNotHaveTags`. -/
def CheckMustNotHaveTags (host : UGMC_AbilityComponent) (e : UGMCAbilityEffect) : Bool :=
  e.MustNotHaveTags.all (fun Tag => !host.HasActiveTag Tag)

/-- `UGMCAbilityEffect::DuplicateEffectAlreadyApplied`. -/
def DuplicateEffectAlreadyApplied (host : UGMC_AbilityComponent) (e : UGMCAbilityEffect) : Bool :=
  if e.EffectTag = FGameplayTag.EmptyTag then false
  else host.GetActiveEffects.any
    (fun Effect => decide (Effect.2.EffectTag = e.EffectTag) && Effect.2.bHasStarted)

/-- `UGMCAbilityEffect::CompletedAndServerConfirmed`. -/
def CompletedAndServerConfirmed (e : UGMCAbilityEffect) : Bool :=
  e.bCompleted && e.bServerConfirmed

/-- `UGMCAbilityEffect::EndEffect`: the effect afterwards and the calls issued. -/
def EndEffect (e : UGMCAbilityEffect) : UGMCAbilityEffect × List HostCall :=
  let e1 := { e with bCompleted := true }
  let e2 := if e1.CurrentState ≠ EEffectState.Ended then UpdateState e1 EEffectState.Ended true
            else e1
  if e2.bHasStarted = false then (e2, [])
  else
    (e2, RemoveTagsFromOwner e2 ++ RemoveAbilitiesFromOwner e2 ++
      (if e2.EffectType ≠ EEffectType.Instant ∧ e2.Period = 0
        then [HostCall.RemoveActiveAbilityModifiers] else []))

/-- `UGMCAbilityEffect::TickPeriodicEffects`: the effect afterwards and the calls issued. -/
def TickPeriodicEffects (e : UGMCAbilityEffect) (DeltaTime : ℚ) :
    UGMCAbilityEffect × List HostCall :=
  if e.Period ≠ 0 ∧ e.CurrentState = EEffectState.Started then
    let e1 := { e with PeriodicApplicationTimer := e.PeriodicApplicationTimer + DeltaTime }
    if e1.PeriodicApplicationTimer ≥ e1.Period then
      ({ e1 with PeriodicApplicationTimer := 0 }, [HostCall.ApplyAbilityEffectModifiers])
    else (e1, [])
  else (e, [])

/-- `UGMCAbilityEffect::CheckState`: the effect afterwards and the calls issued. -/
def CheckState (host : UGMC_AbilityComponent) (e : UGMCAbilityEffect) :
    UGMCAbilityEffect × List HostCall :=
  match e.CurrentState with
  | EEffectState.Initialized =>
    if host.ActionTimer ≥ e.StartTime then
      if (!CheckMustHaveTags host e || !CheckMustNotHaveTags host e
          || DuplicateEffectAlreadyApplied host e) = true then
        (UpdateState e EEffectState.Ended true, [])
      else
        let e1 := { e with bHasStarted := true }
        let calls := AddTagsToOwner e1 ++ AddAbilitiesToOwner e1 ++
          (if e1.Period = 0 then [HostCall.ApplyAbilityEffectModifiers] else [])
        if e1.EffectType = EEffectType.Instant then
          (UpdateState e1 EEffectState.Ended true, calls)
        else
          (UpdateState e1 EEffectState.Started true, calls)
    else (e, [])
  | EEffectState.Started =>
    if e.EffectType = EEffectType.Duration ∧ host.ActionTimer ≥ e.EndTime then
      (UpdateState e EEffectState.Ended true, [])
    else (e, [])
  | EEffectState.Ended =>
    let r := EndEffect e
    ({ r.1 with bCompleted := true }, r.2)

/-- `UGMCAbilityEffect::Tick`: the effect afterwards and the calls issued. -/
def Tick (host : UGMC_AbilityComponent) (e : UGMCAbilityEffect) (DeltaTime : ℚ) :
    UGMCAbilityEffect × List HostCall :=
  let e1 := if (!CheckMustHaveTags host e || !CheckMustNotHaveTags host e) = true
            then UpdateState e EEffectState.Ended true else e
  let r2 := TickPeriodicEffects e1 DeltaTime
  let r3 := CheckState host r2.1
  (r3.1, r2.2 ++ r3.2)

end UGMCAbilityEffect

/-! ## Vocabulary of the properties -/

/-- The changes of `CurrentState` allowed in one call: Initialized to any state,
Started to Started or Ended, Ended to Ended. -/
def ForwardStep : EEffectState → EEffectState → Bool
  | EEffectState.Initialized, _ => true
  | EEffectState.Started, EEffectState.Started => true
  | EEffectState.Started, EEffectState.Ended => true
  | EEffectState.Ended, EEffectState.Ended => true
  | _, _ => false

/-- The condition tested first in `Tick`: `CheckMustHaveTags() && CheckMustNotHaveTags()`. -/
def GatePasses (host : UGMC_AbilityComponent) (e : UGMCAbilityEffect) : Bool :=
  UGMCAbilityEffect.CheckMustHaveTags host e && UGMCAbilityEffect.CheckMustNotHaveTags host e

/-- The calls `EndEffect` issues for a started effect. -/
def teardownCalls (e : UGMCAbilityEffect) : List HostCall :=
  UGMCAbilityEffect.RemoveTagsFromOwner e ++ UGMCAbilityEffect.RemoveAbilitiesFromOwner e ++
    (if e.EffectType ≠ EEffectType.Instant ∧ e.Period = 0
      then [HostCall.RemoveActiveAbilityModifiers] else [])

namespace HostCall

/-- Calls that grant: `AddActiveTag` and `GrantAbilityByTag`. -/
def isGrant : HostCall → Bool
  | AddActiveTag _ => true
  | GrantAbilityByTag _ => true
  | _ => false

/-- Calls that revoke: `RemoveActiveTag`, `RemoveGrantedAbilityByTag` and
`RemoveActiveAbilityModifiers`. -/
def isRevoke : HostCall → Bool
  | RemoveActiveTag _ => true
  | RemoveGrantedAbilityByTag _ => true
  | RemoveActiveAbilityModifiers => true
  | _ => false

/-- Is the call an `AddActiveTag`. -/
def isAddActiveTag : HostCall → Bool
  | AddActiveTag _ => true
  | _ => false

/-- Is the call a `RemoveActiveTag`. -/
def isRemoveActiveTag : HostCall → Bool
  | RemoveActiveTag _ => true
  | _ => false

/-- Is the call an `ApplyAbilityEffectModifiers`. -/
def isApply : HostCall → Bool
  | ApplyAbilityEffectModifiers => true
  | _ => false

end HostCall

/-- Number of `AddActiveTag` calls in a call log. -/
def countAddActiveTag (calls : List HostCall) : Nat := calls.countP HostCall.isAddActiveTag

/-- Number of `RemoveActiveTag` calls in a call log. -/
def countRemoveActiveTag (calls : List HostCall) : Nat := calls.countP HostCall.isRemoveActiveTag

/-- Number of `ApplyAbilityEffectModifiers` calls in a call log. -/
def countApply (calls : List HostCall) : Nat := calls.countP HostCall.isApply

/-- A call made on an effect from outside: `Tick(DeltaTime)`, with the owner as
it is when the call begins, or `EndEffect()`. -/
inductive LifecycleCall where
  | Tick (host : UGMC_AbilityComponent) (DeltaTime : ℚ)
  | EndEffect

/-- One lifecycle call on an effect, the calls it issues appended to the log. -/
def step (s : UGMCAbilityEffect × List HostCall) : LifecycleCall → UGMCAbilityEffect × List HostCall
  | LifecycleCall.Tick host DeltaTime =>
    ((UGMCAbilityEffect.Tick host s.1 DeltaTime).1, s.2 ++ (UGMCAbilityEffect.Tick host s.1 DeltaTime).2)
  | LifecycleCall.EndEffect =>
    ((UGMCAbilityEffect.EndEffect s.1).1, s.2 ++ (UGMCAbilityEffect.EndEffect s.1).2)

/-- A sequence of lifecycle calls on an effect, starting with an empty log. -/
def run (e : UGMCAbilityEffect) (calls : List LifecycleCall) : UGMCAbilityEffect × List HostCall :=
  calls.foldl step (e, [])

/-- A sequence of ticks, each with its owner snapshot and `DeltaTime`. -/
def runTicks (e : UGMCAbilityEffect) (ticks : List (UGMC_AbilityComponent × ℚ)) :
    UGMCAbilityEffect × List HostCall :=
  run e (ticks.map (fun p => LifecycleCall.Tick p.1 p.2))

/-- What one lifecycle call does to the flags and to the tag-call counts: it
activates, or it tears down, or it does neither. -/
def StepSummary (e e1 : UGMCAbilityEffect) (calls : List HostCall) : Prop :=
  e1.GrantedTags = e.GrantedTags ∧
  ((e.CurrentState = EEffectState.Initialized ∧ e1.bHasStarted = true ∧
      e1.CurrentState ≠ EEffectState.Initialized ∧ e1.bCompleted = e.bCompleted ∧
      countAddActiveTag calls = e.GrantedTags.length ∧ countRemoveActiveTag calls = 0) ∨
   (e1.bCompleted = true ∧ e1.CurrentState = EEffectState.Ended ∧
      e1.bHasStarted = e.bHasStarted ∧ countAddActiveTag calls = 0 ∧
      countRemoveActiveTag calls = if e.bHasStarted = true then e.GrantedTags.length else 0) ∨
   (e1.bHasStarted = e.bHasStarted ∧ e1.bCompleted = e.bCompleted ∧
      countAddActiveTag calls = 0 ∧ countRemoveActiveTag calls = 0 ∧
      (e.CurrentState ≠ EEffectState.Initialized → e1.CurrentState ≠ EEffectState.Initialized) ∧
      e.CurrentState ≠ EEffectState.Ended))

/-- The bookkeeping that holds after every sequence of lifecycle calls on an
effect that began Initialized, not started and not completed. -/
def TeardownInv (e0 : UGMCAbilityEffect) (s : UGMCAbilityEffect × List HostCall) : Prop :=
  s.1.GrantedTags = e0.GrantedTags ∧
  (s.1.bHasStarted = false → countAddActiveTag s.2 = 0 ∧ countRemoveActiveTag s.2 = 0) ∧
  (s.1.bHasStarted = true →
    countAddActiveTag s.2 = e0.GrantedTags.length ∧ s.1.CurrentState ≠ EEffectState.Initialized) ∧
  (s.1.bCompleted = false → countRemoveActiveTag s.2 = 0) ∧
  (s.1.bCompleted = true →
    s.1.CurrentState = EEffectState.Ended ∧ countAddActiveTag s.2 ≤ countRemoveActiveTag s.2)

/-- The payload modifiers with, for each `AttributeName`, only the last modifier
carrying it, in the order of these last occurrences. -/
def LastPerAttribute : List FGMCAttributeModifier → List FGMCAttributeModifier
  | [] => []
  | m :: ms =>
    if ms.any (fun p => decide (p.AttributeName = m.AttributeName)) then LastPerAttribute ms
    else m :: LastPerAttribute ms

/-- The merged modifier list as the specification words it: the pre-existing
modifiers whose `AttributeName` does not occur in the payload, in their order,
followed by one modifier for each `AttributeName` of the payload. -/
def MergedModifiersSpec (existing payload : List FGMCAttributeModifier) :
    List FGMCAttributeModifier :=
  existing.filter (fun m => !payload.any (fun p => decide (p.AttributeName = m.AttributeName)))
    ++ LastPerAttribute payload

/-- The owner hosts a duplicate of the effect: `EffectTag` is not empty and some
active effect has an equal `EffectTag` and `bHasStarted` true. -/
def HostsDuplicate (host : UGMC_AbilityComponent) (e : UGMCAbilityEffect) : Prop :=
  e.EffectTag ≠ FGameplayTag.EmptyTag ∧
  ∃ p ∈ host.GetActiveEffects, p.2.EffectTag = e.EffectTag ∧ p.2.bHasStarted = true

/-- The calls of an activation in `CheckState`: the tag grants, the ability
grants, and `ApplyAbilityEffectModifiers` when there is no period. -/
def activationCalls (e : UGMCAbilityEffect) : List HostCall :=
  UGMCAbilityEffect.AddTagsToOwner e ++ UGMCAbilityEffect.AddAbilitiesToOwner e ++
    (if e.Period = 0 then [HostCall.ApplyAbilityEffectModifiers] else [])

/-! ## Sample data -/

/-- A sample tag. -/
def tagBurning : FGameplayTag := ⟨1⟩

/-- A second sample tag. -/
def tagStunned : FGameplayTag := ⟨2⟩

/-- A fresh effect: Duration type, ten time units, no period, one granted tag. -/
def sampleEffect : UGMCAbilityEffect :=
  { Id := 0, EffectType := EEffectType.Duration, Period := 0, Duration := 10,
    StartTime := 0, EndTime := 10, CurrentState := EEffectState.Initialized,
    bHasStarted := false, bCompleted := false, bServerConfirmed := false,
    PeriodicApplicationTimer := 0, Modifiers := [], GrantedTags := [tagBurning],
    GrantedAbilities := [], MustHaveTags := [], MustNotHaveTags := [],
    EffectTag := FGameplayTag.EmptyTag }

/-- A started periodic effect that requires `tagStunned` on its owner. -/
def sampleGated : UGMCAbilityEffect :=
  { sampleEffect with
    MustHaveTags := [tagStunned]
    Period := 1
    CurrentState := EEffectState.Started
    bHasStarted := true }

/-- An owner with authority at time 5 with no active tags or effects. -/
def sampleHost : UGMC_AbilityComponent :=
  { bHasAuthority := true, ActionTimer := 5, ActiveTags := [], ActiveEffects := [] }

/-- An owner without authority at time 5 with no active tags or effects. -/
def sampleClient : UGMC_AbilityComponent :=
  { bHasAuthority := false, ActionTimer := 5, ActiveTags := [], ActiveEffects := [] }

/-- An effect that has run as a Duration effect without period since time 0. -/
def sampleRunning : UGMCAbilityEffect :=
  { sampleEffect with
    CurrentState := EEffectState.Started
    bHasStarted := true }

/-- The owner at time 20, after the sample effect's `EndTime`. -/
def sampleHostLate : UGMC_AbilityComponent :=
  { bHasAuthority := true, ActionTimer := 20, ActiveTags := [], ActiveEffects := [] }

/-- A payload carrying server times 7 and 17 and the effect id 42. -/
def samplePayload : FGMCAbilityEffectData :=
  { Modifiers := [], bOverwriteExistingModifiers := false,
    ServerStartTime := 7, ServerEndTime := 17, EffectID := 42 }

/-- A started Duration effect with period 1 and the timer at 0. -/
def samplePeriodic : UGMCAbilityEffect :=
  { sampleEffect with
    Period := 1
    CurrentState := EEffectState.Started
    bHasStarted := true }

/-- An effect with two modifiers of attribute 1 and one of attribute 2. -/
def sampleModified : UGMCAbilityEffect :=
  { sampleEffect with Modifiers := [⟨1, 5⟩, ⟨1, 6⟩, ⟨2, 7⟩] }

/-- A payload that overwrites attribute 1. -/
def sampleOverwrite : FGMCAbilityEffectData :=
  { Modifiers := [⟨1, 9⟩], bOverwriteExistingModifiers := true,
    ServerStartTime := 0, ServerEndTime := 0, EffectID := 0 }

/-- An effect tagged `tagBurning`. -/
def sampleTagged : UGMCAbilityEffect :=
  { sampleEffect with EffectTag := tagBurning }

/-- An owner that already hosts a started effect tagged `tagBurning`. -/
def sampleHostBurning : UGMC_AbilityComponent :=
  { bHasAuthority := true, ActionTimer := 5, ActiveTags := [],
    ActiveEffects := [(1, { sampleRunning with EffectTag := tagBurning })] }

/-- A fresh Instant effect without period that grants `tagBurning` and the
ability `tagStunned`. -/
def sampleInstant : UGMCAbilityEffect :=
  { sampleEffect with
    EffectType := EEffectType.Instant
    GrantedAbilities := [tagStunned] }

/-- The Instant sample effect as the authority stamps it at time 5. -/
def sampleInstantStamped : UGMCAbilityEffect :=
  { sampleInstant with
    StartTime := 5
    EndTime := 15
    bServerConfirmed := true }

/-- A payload whose server window is reversed: it starts at 7 and ends at 3. -/
def sampleReversedPayload : FGMCAbilityEffectData :=
  { Modifiers := [], bOverwriteExistingModifiers := false,
    ServerStartTime := 7, ServerEndTime := 3, EffectID := 42 }

/-- An effect with two modifiers of attribute 1 and nothing after them. -/
def sampleTwin : UGMCAbilityEffect :=
  { sampleEffect with Modifiers := [⟨1, 5⟩, ⟨1, 6⟩] }

/-- A fresh Instant effect with period 1. -/
def sampleInstantPeriodic : UGMCAbilityEffect :=
  { sampleInstant with Period := 1 }

/-! ## Lemmas about the single operations -/

open UGMCAbilityEffect

theorem EndEffect_eq (e : UGMCAbilityEffect) :
    EndEffect e =
      ({ e with bCompleted := true, CurrentState := EEffectState.Ended },
        if e.bHasStarted = false then [] else teardownCalls e) := by
  obtain ⟨_, _, _, _, _, _, st, hs, _, _, _, _, _, _, _, _, _⟩ := e
  cases st <;> cases hs <;> simp [EndEffect, UpdateState, teardownCalls,
    RemoveTagsFromOwner, RemoveAbilitiesFromOwner]

theorem EndEffect_state (e : UGMCAbilityEffect) :
    (EndEffect e).1.CurrentState = EEffectState.Ended := by
  rw [EndEffect_eq]

theorem TickPeriodicEffects_state (e : UGMCAbilityEffect) (dt : ℚ) :
    (TickPeriodicEffects e dt).1.CurrentState = e.CurrentState := by
  unfold TickPeriodicEffects
  dsimp only
  split
  · split <;> rfl
  · rfl

theorem TickPeriodicEffects_StartTime (e : UGMCAbilityEffect) (dt : ℚ) :
    (TickPeriodicEffects e dt).1.StartTime = e.StartTime := by
  unfold TickPeriodicEffects
  dsimp only
  split
  · split <;> rfl
  · rfl

theorem TickPeriodicEffects_of_not_started (e : UGMCAbilityEffect) (dt : ℚ)
    (h : e.CurrentState ≠ EEffectState.Started) : TickPeriodicEffects e dt = (e, []) := by
  unfold TickPeriodicEffects
  simp [h]

theorem CheckState_of_ended (host : UGMC_AbilityComponent) (e : UGMCAbilityEffect)
    (h : e.CurrentState = EEffectState.Ended) :
    CheckState host e = ({ (EndEffect e).1 with bCompleted := true }, (EndEffect e).2) := by
  unfold CheckState
  simp [h]

theorem gate_fails_iff (host : UGMC_AbilityComponent) (e : UGMCAbilityEffect) :
    ((∃ t ∈ e.MustHaveTags, host.HasActiveTag t = false) ∨
      (∃ t ∈ e.MustNotHaveTags, host.HasActiveTag t = true)) ↔
    (!CheckMustHaveTags host e || !CheckMustNotHaveTags host e) = true := by
  simp [CheckMustHaveTags, CheckMustNotHaveTags]

theorem Tick_of_gate_fails (host : UGMC_AbilityComponent) (e : UGMCAbilityEffect) (dt : ℚ)
    (h : (!CheckMustHaveTags host e || !CheckMustNotHaveTags host e) = true) :
    Tick host e dt =
      ({ (EndEffect (UpdateState e EEffectState.Ended true)).1 with bCompleted := true },
        (EndEffect (UpdateState e EEffectState.Ended true)).2) := by
  unfold Tick
  simp only [h, if_true]
  rw [TickPeriodicEffects_of_not_started _ _ (by simp [UpdateState])]
  rw [CheckState_of_ended _ _ (by simp [UpdateState])]
  simp

theorem Tick_of_gate_passes (host : UGMC_AbilityComponent) (e : UGMCAbilityEffect) (dt : ℚ)
    (h : (!CheckMustHaveTags host e || !CheckMustNotHaveTags host e) = false) :
    Tick host e dt =
      ((CheckState host (TickPeriodicEffects e dt).1).1,
        (TickPeriodicEffects e dt).2 ++ (CheckState host (TickPeriodicEffects e dt).1).2) := by
  unfold Tick
  simp [h]

theorem EndEffect_calls_revoke (e : UGMCAbilityEffect) :
    ∀ c ∈ (EndEffect e).2, c.isRevoke = true := by
  intro c hc
  rw [EndEffect_eq] at hc
  dsimp only at hc
  split at hc
  · simp at hc
  · simp only [teardownCalls, RemoveTagsFromOwner, RemoveAbilitiesFromOwner, List.mem_append,
      List.mem_map] at hc
    rcases hc with (⟨t, _, rfl⟩ | ⟨t, _, rfl⟩) | hc
    · rfl
    · rfl
    · split at hc
      · simp at hc; subst hc; rfl
      · simp at hc

theorem CheckState_forward (host : UGMC_AbilityComponent) (e : UGMCAbilityEffect) :
    ForwardStep e.CurrentState (CheckState host e).1.CurrentState = true ∧
    (e.CurrentState = EEffectState.Initialized →
      (CheckState host e).1.CurrentState = EEffectState.Started →
      host.ActionTimer ≥ e.StartTime) := by
  unfold CheckState
  split
  · rename_i hs
    rw [hs]
    refine ⟨rfl, fun _ => ?_⟩
    by_cases ht : host.ActionTimer ≥ e.StartTime
    · intro _; exact ht
    · simp [ht, hs]
  · rename_i hs
    rw [hs]
    refine ⟨?_, fun h => by cases h⟩
    split
    · rfl
    · rw [hs]; rfl
  · rename_i hs
    rw [hs]
    refine ⟨?_, fun h => by cases h⟩
    show ForwardStep EEffectState.Ended (EndEffect e).1.CurrentState = true
    rw [EndEffect_state]; rfl

theorem TickPeriodicEffects_frame (e : UGMCAbilityEffect) (dt : ℚ) :
    ∃ t, (TickPeriodicEffects e dt).1 = { e with PeriodicApplicationTimer := t } ∧
      ((TickPeriodicEffects e dt).2 = [] ∨
        (TickPeriodicEffects e dt).2 = [HostCall.ApplyAbilityEffectModifiers]) := by
  unfold TickPeriodicEffects
  dsimp only
  split
  · split
    · exact ⟨0, rfl, Or.inr rfl⟩
    · exact ⟨_, rfl, Or.inl rfl⟩
  · exact ⟨e.PeriodicApplicationTimer, rfl, Or.inl rfl⟩

theorem CheckState_of_started (host : UGMC_AbilityComponent) (e : UGMCAbilityEffect)
    (h : e.CurrentState = EEffectState.Started) :
    CheckState host e =
      (if e.EffectType = EEffectType.Duration ∧ host.ActionTimer ≥ e.EndTime
        then UpdateState e EEffectState.Ended true else e, []) := by
  unfold CheckState
  simp only [h]
  split <;> rfl

theorem CheckState_of_waiting (host : UGMC_AbilityComponent) (e : UGMCAbilityEffect)
    (h : e.CurrentState = EEffectState.Initialized) (ht : ¬ host.ActionTimer ≥ e.StartTime) :
    CheckState host e = (e, []) := by
  unfold CheckState
  simp only [h, ht, if_false]

theorem CheckState_of_rejected (host : UGMC_AbilityComponent) (e : UGMCAbilityEffect)
    (h : e.CurrentState = EEffectState.Initialized) (ht : host.ActionTimer ≥ e.StartTime)
    (hr : (!CheckMustHaveTags host e || !CheckMustNotHaveTags host e
          || DuplicateEffectAlreadyApplied host e) = true) :
    CheckState host e = (UpdateState e EEffectState.Ended true, []) := by
  unfold CheckState
  simp only [h, ht, hr, if_true]

theorem CheckState_of_activated (host : UGMC_AbilityComponent) (e : UGMCAbilityEffect)
    (h : e.CurrentState = EEffectState.Initialized) (ht : host.ActionTimer ≥ e.StartTime)
    (hr : (!CheckMustHaveTags host e || !CheckMustNotHaveTags host e
          || DuplicateEffectAlreadyApplied host e) = false) :
    CheckState host e =
      ({ e with bHasStarted := true,
                CurrentState := if e.EffectType = EEffectType.Instant then EEffectState.Ended
                  else EEffectState.Started },
        AddTagsToOwner e ++ AddAbilitiesToOwner e ++
          (if e.Period = 0 then [HostCall.ApplyAbilityEffectModifiers] else [])) := by
  unfold CheckState
  simp only [h, ht, hr, if_true]
  by_cases hi : e.EffectType = EEffectType.Instant <;>
    simp [hi, UpdateState, AddTagsToOwner, AddAbilitiesToOwner]

theorem count_teardownCalls (e : UGMCAbilityEffect) :
    countAddActiveTag (teardownCalls e) = 0 ∧
    countRemoveActiveTag (teardownCalls e) = e.GrantedTags.length := by
  unfold teardownCalls countAddActiveTag countRemoveActiveTag RemoveTagsFromOwner
    RemoveAbilitiesFromOwner
  constructor
  · rw [List.countP_eq_zero]
    intro c hc
    simp only [List.mem_append, List.mem_map] at hc
    rcases hc with (⟨t, _, rfl⟩ | ⟨t, _, rfl⟩) | hc
    · simp [HostCall.isAddActiveTag]
    · simp [HostCall.isAddActiveTag]
    · split at hc
      · simp at hc; subst hc; simp [HostCall.isAddActiveTag]
      · simp at hc
  · rw [List.countP_append, List.countP_append, List.countP_map, List.countP_map]
    have h1 : List.countP (HostCall.isRemoveActiveTag ∘ HostCall.RemoveActiveTag) e.GrantedTags
        = e.GrantedTags.length := by
      rw [List.countP_eq_length]; intro t _; rfl
    have h2 : List.countP (HostCall.isRemoveActiveTag ∘ HostCall.RemoveGrantedAbilityByTag)
        e.GrantedAbilities = 0 := by
      rw [List.countP_eq_zero]; intro t _; simp [HostCall.isRemoveActiveTag]
    rw [h1, h2]
    split <;> simp [HostCall.isRemoveActiveTag]

theorem count_activationCalls (e : UGMCAbilityEffect) :
    countAddActiveTag (AddTagsToOwner e ++ AddAbilitiesToOwner e ++
          (if e.Period = 0 then [HostCall.ApplyAbilityEffectModifiers] else []))
      = e.GrantedTags.length ∧
    countRemoveActiveTag (AddTagsToOwner e ++ AddAbilitiesToOwner e ++
          (if e.Period = 0 then [HostCall.ApplyAbilityEffectModifiers] else [])) = 0 := by
  unfold countAddActiveTag countRemoveActiveTag AddTagsToOwner AddAbilitiesToOwner
  constructor
  · rw [List.countP_append, List.countP_append, List.countP_map, List.countP_map]
    have h1 : List.countP (HostCall.isAddActiveTag ∘ HostCall.AddActiveTag) e.GrantedTags
        = e.GrantedTags.length := by
      rw [List.countP_eq_length]; intro t _; rfl
    have h2 : List.countP (HostCall.isAddActiveTag ∘ HostCall.GrantAbilityByTag)
        e.GrantedAbilities = 0 := by
      rw [List.countP_eq_zero]; intro t _; simp [HostCall.isAddActiveTag]
    rw [h1, h2]
    split <;> simp [HostCall.isAddActiveTag]
  · rw [List.countP_eq_zero]
    intro c hc
    simp only [List.mem_append, List.mem_map] at hc
    rcases hc with (⟨t, _, rfl⟩ | ⟨t, _, rfl⟩) | hc
    · simp [HostCall.isRemoveActiveTag]
    · simp [HostCall.isRemoveActiveTag]
    · split at hc
      · simp at hc; subst hc; simp [HostCall.isRemoveActiveTag]
      · simp at hc

theorem EndEffect_summary (e : UGMCAbilityEffect) :
    StepSummary e (EndEffect e).1 (EndEffect e).2 := by
  rw [EndEffect_eq]
  refine ⟨rfl, Or.inr (Or.inl ⟨rfl, rfl, rfl, ?_, ?_⟩)⟩
  · dsimp only
    split
    · rfl
    · exact (count_teardownCalls e).1
  · dsimp only
    cases hb : e.bHasStarted
    · simp [countRemoveActiveTag]
    · simpa using (count_teardownCalls e).2

theorem Tick_summary (host : UGMC_AbilityComponent) (e : UGMCAbilityEffect) (dt : ℚ) :
    StepSummary e (Tick host e dt).1 (Tick host e dt).2 := by
  by_cases hg : (!CheckMustHaveTags host e || !CheckMustNotHaveTags host e) = true
  · -- the gate fails: teardown of the effect forced to Ended
    rw [Tick_of_gate_fails host e dt hg]
    have h := EndEffect_summary (UpdateState e EEffectState.Ended true)
    obtain ⟨hG, hcase⟩ := h
    refine ⟨hG, Or.inr (Or.inl ?_)⟩
    rcases hcase with h | h | h
    · exact absurd h.1 (by simp [UpdateState])
    · exact ⟨rfl, h.2.1, h.2.2.1, h.2.2.2.1, h.2.2.2.2⟩
    · exact absurd rfl h.2.2.2.2.2
  · have hg' : (!CheckMustHaveTags host e || !CheckMustNotHaveTags host e) = false := by
      simpa using hg
    rw [Tick_of_gate_passes host e dt hg']
    obtain ⟨t, ht, hcalls⟩ := TickPeriodicEffects_frame e dt
    have hc0 : countAddActiveTag (TickPeriodicEffects e dt).2 = 0 ∧
        countRemoveActiveTag (TickPeriodicEffects e dt).2 = 0 := by
      rcases hcalls with h | h <;> rw [h] <;>
        simp [countAddActiveTag, countRemoveActiveTag, HostCall.isAddActiveTag,
          HostCall.isRemoveActiveTag]
    rw [ht]
    generalize hp : ({ e with PeriodicApplicationTimer := t } : UGMCAbilityEffect) = e2
    have hst : e2.CurrentState = e.CurrentState := by rw [← hp]
    have hgr : e2.GrantedTags = e.GrantedTags := by rw [← hp]
    have hhs : e2.bHasStarted = e.bHasStarted := by rw [← hp]
    have hco : e2.bCompleted = e.bCompleted := by rw [← hp]
    have hadd : ∀ l, countAddActiveTag ((TickPeriodicEffects e dt).2 ++ l)
        = countAddActiveTag l := by
      intro l; unfold countAddActiveTag; rw [List.countP_append]
      have := hc0.1; unfold countAddActiveTag at this; omega
    have hrem : ∀ l, countRemoveActiveTag ((TickPeriodicEffects e dt).2 ++ l)
        = countRemoveActiveTag l := by
      intro l; unfold countRemoveActiveTag; rw [List.countP_append]
      have := hc0.2; unfold countRemoveActiveTag at this; omega
    dsimp only
    unfold StepSummary
    rw [hadd, hrem, ← hst, ← hgr, ← hhs, ← hco]
    clear hadd hrem hc0 hcalls hst hgr hhs hco hp ht hg hg'
    -- now a statement about `CheckState host e2` alone
    cases hs : e2.CurrentState
    · by_cases htime : host.ActionTimer ≥ e2.StartTime
      · cases hr : (!CheckMustHaveTags host e2 || !CheckMustNotHaveTags host e2
          || DuplicateEffectAlreadyApplied host e2)
        · rw [CheckState_of_activated host e2 hs htime hr]
          refine ⟨rfl, Or.inl ⟨rfl, rfl, ?_, rfl, count_activationCalls e2⟩⟩
          dsimp only
          split <;> simp
        · rw [CheckState_of_rejected host e2 hs htime hr]
          refine ⟨rfl, Or.inr (Or.inr ⟨rfl, rfl, rfl, rfl, fun h => absurd rfl h, by simp⟩)⟩
      · rw [CheckState_of_waiting host e2 hs htime]
        exact ⟨rfl, Or.inr (Or.inr ⟨rfl, rfl, rfl, rfl, fun h => absurd rfl h, by simp⟩)⟩
    · rw [CheckState_of_started host e2 hs]
      refine ⟨?_, Or.inr (Or.inr ⟨?_, ?_, rfl, rfl, fun _ => ?_, by simp⟩)⟩
      all_goals dsimp only
      all_goals split
      all_goals simp [UpdateState, hs]
    · rw [CheckState_of_ended host e2 hs]
      have h := EndEffect_summary e2
      obtain ⟨hG, hcase⟩ := h
      refine ⟨hG, Or.inr (Or.inl ?_)⟩
      rcases hcase with h | h | h
      · rw [hs] at h; exact absurd h.1 (by simp)
      · exact ⟨rfl, h.2.1, h.2.2.1, h.2.2.2.1, h.2.2.2.2⟩
      · exact absurd hs h.2.2.2.2.2

theorem run_append_singleton (e : UGMCAbilityEffect) (calls : List LifecycleCall)
    (c : LifecycleCall) : run e (calls ++ [c]) = step (run e calls) c := by
  unfold run
  rw [List.foldl_append]
  rfl

theorem step_summary (s : UGMCAbilityEffect × List HostCall) (c : LifecycleCall) :
    ∃ calls, (step s c).2 = s.2 ++ calls ∧ StepSummary s.1 (step s c).1 calls := by
  cases c with
  | Tick host dt => exact ⟨_, rfl, Tick_summary host s.1 dt⟩
  | EndEffect => exact ⟨_, rfl, EndEffect_summary s.1⟩

theorem TeardownInv_step (e0 : UGMCAbilityEffect) (s : UGMCAbilityEffect × List HostCall)
    (c : LifecycleCall) (h : TeardownInv e0 s) : TeardownInv e0 (step s c) := by
  obtain ⟨calls, hlog, hG, hcase⟩ := step_summary s c
  obtain ⟨iG, i1, i2, i3, i4⟩ := h
  have hadd : countAddActiveTag (step s c).2 = countAddActiveTag s.2 + countAddActiveTag calls := by
    rw [hlog]; exact List.countP_append _ _ _
  have hrem : countRemoveActiveTag (step s c).2
      = countRemoveActiveTag s.2 + countRemoveActiveTag calls := by
    rw [hlog]; exact List.countP_append _ _ _
  unfold TeardownInv
  rw [hadd, hrem, hG, iG]
  rw [iG] at hcase
  refine ⟨rfl, ?_⟩
  rcases hcase with ⟨hst, hs1, hn1, hc1, ha, hr⟩ | ⟨hc1, hst1, hs1, ha, hr⟩ | ⟨hs1, hc1, ha, hr, hfw, hne⟩
  · -- activation
    have hns : s.1.bHasStarted = false := by
      cases hb : s.1.bHasStarted
      · rfl
      · exact absurd hst (i2 hb).2
    have hnc : s.1.bCompleted = false := by
      cases hb : s.1.bCompleted
      · rfl
      · have := (i4 hb).1; rw [hst] at this; cases this
    have h0 := i1 hns
    rw [hs1, hc1, hnc, ha, hr, h0.1, h0.2]
    simp [hn1]
  · -- teardown
    rw [hc1, hs1, hst1, ha, hr]
    cases hb : s.1.bHasStarted
    · have h0 := i1 hb
      simp [h0.1, h0.2]
    · have h1 := i2 hb
      simp [h1.1]
  · -- neither
    rw [hs1, hc1, ha, hr]
    refine ⟨by simpa using i1, ?_, by simpa using i3, ?_⟩
    · intro hb
      exact ⟨by simpa using (i2 hb).1, hfw (i2 hb).2⟩
    · intro hb
      exact absurd (i4 hb).1 hne

theorem TeardownInv_run (e : UGMCAbilityEffect) (calls : List LifecycleCall)
    (hb : e.bHasStarted = false)
    (hc : e.bCompleted = false) : TeardownInv e (run e calls) := by
  induction calls using List.reverseRecOn with
  | nil =>
    refine ⟨rfl, fun _ => ⟨rfl, rfl⟩, fun h => ?_, fun _ => rfl, fun h => ?_⟩
    · rw [show (run e []).1 = e from rfl, hb] at h; cases h
    · rw [show (run e []).1 = e from rfl, hc] at h; cases h
  | append_singleton l c ih =>
    rw [run_append_singleton]
    exact TeardownInv_step e _ c ih

theorem bHasStarted_step (s : UGMCAbilityEffect × List HostCall) (c : LifecycleCall)
    (h : s.1.bHasStarted = true) : (step s c).1.bHasStarted = true := by
  obtain ⟨_, _, _, hcase⟩ := step_summary s c
  rcases hcase with h1 | h1 | h1
  · exact h1.2.1
  · rw [h1.2.2.1]; exact h
  · rw [h1.1]; exact h

/-- `bHasStarted` is never reset: once true it stays true under further calls. -/
theorem bHasStarted_foldl (post : List LifecycleCall) (s : UGMCAbilityEffect × List HostCall)
    (h : s.1.bHasStarted = true) : (post.foldl step s).1.bHasStarted = true := by
  induction post generalizing s with
  | nil => exact h
  | cons c rest ih => exact ih (step s c) (bHasStarted_step s c h)

theorem AddModifiers_nil (b : Bool) (mods : List FGMCAttributeModifier) :
    AddModifiers b mods [] = some mods := by
  cases mods <;> rfl

theorem InitializeEffect_eq_some (host : UGMC_AbilityComponent) (e e1 : UGMCAbilityEffect)
    (bServerApplied : Bool) (data : FGMCAbilityEffectData)
    (h : InitializeEffect host e bServerApplied data = some e1) :
    ∃ mods, AddModifiers data.bOverwriteExistingModifiers e.Modifiers data.Modifiers = some mods ∧
      e1 = StampTimes host { e with Modifiers := mods } bServerApplied data := by
  unfold InitializeEffect at h
  split at h
  · cases h
  · rename_i mods hm
    exact ⟨mods, hm, (Option.some.inj h).symm⟩

theorem AddModifiers_no_overwrite (mods payload : List FGMCAttributeModifier) :
    AddModifiers false mods payload = some (mods ++ payload) := by
  induction payload generalizing mods with
  | nil => simp [AddModifiers_nil]
  | cons m rest ih =>
    unfold AddModifiers
    simp only [AddModifier, Bool.false_eq_true, if_false]
    rw [ih]
    simp

/-- Without `bOverwriteExistingModifiers` no `RemoveAt` runs and
`InitializeEffect` completes. -/
theorem InitializeEffect_completes_of_no_overwrite (host : UGMC_AbilityComponent)
    (e : UGMCAbilityEffect) (bServerApplied : Bool) (data : FGMCAbilityEffectData)
    (h : data.bOverwriteExistingModifiers = false) :
    InitializeEffect host e bServerApplied data =
      some (StampTimes host { e with Modifiers := e.Modifiers ++ data.Modifiers }
        bServerApplied data) := by
  unfold InitializeEffect
  rw [h, AddModifiers_no_overwrite]

theorem runTicks_append_singleton (e : UGMCAbilityEffect)
    (ticks : List (UGMC_AbilityComponent × ℚ)) (p : UGMC_AbilityComponent × ℚ) :
    runTicks e (ticks ++ [p]) = step (runTicks e ticks) (LifecycleCall.Tick p.1 p.2) := by
  unfold runTicks
  rw [List.map_append, List.map_singleton, run_append_singleton]

theorem TickPeriodicEffects_of_started (e : UGMCAbilityEffect) (dt : ℚ)
    (hp : e.Period ≠ 0) (hs : e.CurrentState = EEffectState.Started) :
    TickPeriodicEffects e dt =
      if e.PeriodicApplicationTimer + dt ≥ e.Period then
        ({ e with PeriodicApplicationTimer := 0 }, [HostCall.ApplyAbilityEffectModifiers])
      else ({ e with PeriodicApplicationTimer := e.PeriodicApplicationTimer + dt }, []) := by
  unfold TickPeriodicEffects
  simp only [hp, hs, ne_eq, not_false_eq_true, and_self, if_true]

theorem Tick_of_stays_started (host : UGMC_AbilityComponent) (e : UGMCAbilityEffect) (dt : ℚ)
    (hs : e.CurrentState = EEffectState.Started)
    (hs1 : (Tick host e dt).1.CurrentState = EEffectState.Started) :
    Tick host e dt = TickPeriodicEffects e dt := by
  by_cases hg : (!CheckMustHaveTags host e || !CheckMustNotHaveTags host e) = true
  · rw [Tick_of_gate_fails host e dt hg] at hs1
    have h2 : (EndEffect (UpdateState e EEffectState.Ended true)).1.CurrentState
        = EEffectState.Started := hs1
    rw [EndEffect_state] at h2
    cases h2
  · have hg' : (!CheckMustHaveTags host e || !CheckMustNotHaveTags host e) = false := by
      simpa using hg
    rw [Tick_of_gate_passes host e dt hg'] at hs1 ⊢
    have hst : (TickPeriodicEffects e dt).1.CurrentState = EEffectState.Started := by
      rw [TickPeriodicEffects_state, hs]
    rw [CheckState_of_started host _ hst] at hs1 ⊢
    dsimp only at hs1 ⊢
    split at hs1
    · simp [UpdateState] at hs1
    · rename_i hc
      simp only [hc, if_false, List.append_nil]

theorem sum_of_uniform (P : ℚ) (ticks : List (UGMC_AbilityComponent × ℚ))
    (hu : ∀ p ∈ ticks, p.2 = P) : (ticks.map Prod.snd).sum = (ticks.length : ℚ) * P := by
  induction ticks with
  | nil => simp
  | cons q rest ih =>
    rw [List.map_cons, List.sum_cons, ih (fun p hp => hu p (List.mem_cons_of_mem _ hp)),
      hu q (List.mem_cons_self _ _)]
    simp only [List.length_cons]
    push_cast
    ring

/-- The accounting behind the periodic cadence: every application has consumed
at least one period of the accumulated deltas. -/
theorem cadence_invariant (e : UGMCAbilityEffect) (P : ℚ) (hP : 0 < P) (hPer : e.Period = P)
    (hT : e.PeriodicApplicationTimer = 0) (ticks : List (UGMC_AbilityComponent × ℚ))
    (hd : ∀ p ∈ ticks, 0 ≤ p.2)
    (hstay : ∀ n ≤ ticks.length,
      (runTicks e (ticks.take n)).1.CurrentState = EEffectState.Started) :
    (runTicks e ticks).1.Period = P ∧
    0 ≤ (runTicks e ticks).1.PeriodicApplicationTimer ∧
    (countApply (runTicks e ticks).2 : ℚ) * P + (runTicks e ticks).1.PeriodicApplicationTimer
      ≤ (ticks.map Prod.snd).sum ∧
    countApply (runTicks e ticks).2 ≤ ticks.length ∧
    ((∀ p ∈ ticks, p.2 = P) →
      (runTicks e ticks).1.PeriodicApplicationTimer = 0 ∧
      countApply (runTicks e ticks).2 = ticks.length) := by
  induction ticks using List.reverseRecOn with
  | nil =>
    refine ⟨hPer, ?_, ?_, ?_, fun _ => ⟨hT, rfl⟩⟩
    · show 0 ≤ e.PeriodicApplicationTimer
      rw [hT]
    · show ((0 : ℕ) : ℚ) * P + e.PeriodicApplicationTimer ≤ 0
      rw [hT]; simp
    · exact Nat.le_refl _
  | append_singleton l p ih =>
    have hd' : ∀ q ∈ l, 0 ≤ q.2 := fun q hq => hd q (List.mem_append_left _ hq)
    have hstay' : ∀ n ≤ l.length,
        (runTicks e (l.take n)).1.CurrentState = EEffectState.Started := by
      intro n hn
      have := hstay n (by simp; omega)
      rwa [List.take_append_of_le_length hn] at this
    obtain ⟨iP, i0, iacc, ilen, iuni⟩ := ih hd' hstay'
    have hbefore : (runTicks e l).1.CurrentState = EEffectState.Started := by
      have := hstay' l.length (Nat.le_refl _)
      rwa [List.take_length] at this
    have hafter : (runTicks e (l ++ [p])).1.CurrentState = EEffectState.Started := by
      have := hstay (l ++ [p]).length (Nat.le_refl _)
      rwa [List.take_length] at this
    rw [runTicks_append_singleton] at hafter ⊢
    have hdp : 0 ≤ p.2 := hd p (by simp)
    have hne : (runTicks e l).1.Period ≠ 0 := by rw [iP]; exact ne_of_gt hP
    have htick := Tick_of_stays_started p.1 (runTicks e l).1 p.2 hbefore hafter
    have hstep : step (runTicks e l) (LifecycleCall.Tick p.1 p.2)
        = ((TickPeriodicEffects (runTicks e l).1 p.2).1,
            (runTicks e l).2 ++ (TickPeriodicEffects (runTicks e l).1 p.2).2) := by
      show ((Tick p.1 (runTicks e l).1 p.2).1, (runTicks e l).2 ++ (Tick p.1 (runTicks e l).1 p.2).2)
        = _
      rw [htick]
    rw [hstep, TickPeriodicEffects_of_started _ _ hne hbefore]
    simp only [List.map_append, List.map_singleton, List.sum_append, List.sum_singleton,
      List.length_append, List.length_singleton]
    by_cases hfire : (runTicks e l).1.PeriodicApplicationTimer + p.2 ≥ (runTicks e l).1.Period
    · simp only [hfire, if_true]
      have hc : countApply ((runTicks e l).2 ++ [HostCall.ApplyAbilityEffectModifiers])
          = countApply (runTicks e l).2 + 1 := by
        unfold countApply
        rw [List.countP_append]
        rfl
      rw [hc]
      refine ⟨iP, le_refl _, ?_, by omega, ?_⟩
      · rw [iP] at hfire
        push_cast
        have : (runTicks e l).1.PeriodicApplicationTimer + p.2 ≥ P := hfire
        linarith
      · intro hu
        have := iuni (fun q hq => hu q (List.mem_append_left _ hq))
        refine ⟨?_, by omega⟩
        first | rfl | trivial
    · simp only [hfire, if_false]
      have hc : countApply ((runTicks e l).2 ++ []) = countApply (runTicks e l).2 := by
        rw [List.append_nil]
      rw [hc]
      refine ⟨iP, by linarith, ?_, by omega, ?_⟩
      · linarith
      · intro hu
        exfalso
        have h1 := iuni (fun q hq => hu q (List.mem_append_left _ hq))
        have h2 : p.2 = P := hu p (by simp)
        apply hfire
        rw [h1.1, h2, iP]
        simp

theorem DuplicateEffectAlreadyApplied_iff (host : UGMC_AbilityComponent)
    (e : UGMCAbilityEffect) :
    DuplicateEffectAlreadyApplied host e = true ↔ HostsDuplicate host e := by
  unfold DuplicateEffectAlreadyApplied HostsDuplicate
  by_cases h : e.EffectTag = FGameplayTag.EmptyTag
  · simp [h]
  · simp [h]

theorem ExistingModifiersToRemove_of_absent (Name : Nat) (k : Nat)
    (mods : List FGMCAttributeModifier) (h : ∀ m ∈ mods, m.AttributeName ≠ Name) :
    ExistingModifiersToRemove Name k mods = [] := by
  induction mods generalizing k with
  | nil => rfl
  | cons m ms ih =>
    unfold ExistingModifiersToRemove
    rw [if_neg (h m (List.mem_cons_self _ _))]
    exact ih (k + 1) (fun q hq => h q (List.mem_cons_of_mem _ hq))

theorem filter_of_absent (Name : Nat) (mods : List FGMCAttributeModifier)
    (h : ∀ m ∈ mods, m.AttributeName ≠ Name) :
    mods.filter (fun m => !decide (m.AttributeName = Name)) = mods := by
  rw [List.filter_eq_self]
  intro m hm
  simp [h m hm]

/-- With pairwise distinct attribute names, at most one index is collected and
removing it deletes exactly the modifiers of that name. -/
theorem ExistingModifiersToRemove_of_nodup (Name : Nat) (k : Nat)
    (mods : List FGMCAttributeModifier) (hn : (mods.map (fun m => m.AttributeName)).Nodup) :
    (ExistingModifiersToRemove Name k mods = [] ∧
      mods.filter (fun m => !decide (m.AttributeName = Name)) = mods) ∨
    (∃ i, i < mods.length ∧ ExistingModifiersToRemove Name k mods = [k + i] ∧
      mods.eraseIdx i = mods.filter (fun m => !decide (m.AttributeName = Name))) := by
  induction mods generalizing k with
  | nil => exact Or.inl ⟨rfl, rfl⟩
  | cons m ms ih =>
    rw [List.map_cons, List.nodup_cons] at hn
    obtain ⟨hm, hms⟩ := hn
    by_cases hname : m.AttributeName = Name
    · right
      have habs : ∀ q ∈ ms, q.AttributeName ≠ Name := by
        intro q hq hqn
        apply hm
        rw [hname, ← hqn]
        exact List.mem_map_of_mem _ hq
      refine ⟨0, by simp, ?_, ?_⟩
      · unfold ExistingModifiersToRemove
        rw [if_pos hname, ExistingModifiersToRemove_of_absent Name (k + 1) ms habs]
        rfl
      · rw [List.eraseIdx_cons_zero, List.filter_cons_of_neg (by simp [hname]),
          filter_of_absent Name ms habs]
    · have hstep : ExistingModifiersToRemove Name k (m :: ms)
          = ExistingModifiersToRemove Name (k + 1) ms := by
        rw [ExistingModifiersToRemove, if_neg hname]
      rcases ih (k + 1) hms with ⟨h1, h2⟩ | ⟨i, hi, h1, h2⟩
      · left
        refine ⟨by rw [hstep, h1], ?_⟩
        rw [List.filter_cons_of_pos (by simp [hname]), h2]
      · right
        refine ⟨i + 1, by simp [hi], ?_, ?_⟩
        · rw [hstep, h1]
          congr 1
          omega
        · rw [List.eraseIdx_cons_succ, h2, List.filter_cons_of_pos (by simp [hname])]

theorem AddModifier_of_nodup (mods : List FGMCAttributeModifier) (m : FGMCAttributeModifier)
    (hn : (mods.map (fun q => q.AttributeName)).Nodup) :
    AddModifier true mods m
      = some (mods.filter (fun q => !decide (q.AttributeName = m.AttributeName)) ++ [m]) := by
  unfold AddModifier
  simp only [if_true]
  rcases ExistingModifiersToRemove_of_nodup m.AttributeName 0 mods hn with
    ⟨h1, h2⟩ | ⟨i, hi, h1, h2⟩
  · rw [h1, h2]
    rfl
  · rw [h1, Nat.zero_add]
    simp only [PurgeModifiers, TArray.RemoveAt, hi, if_true, h2]

theorem nodup_after_AddModifier (mods : List FGMCAttributeModifier) (m : FGMCAttributeModifier)
    (hn : (mods.map (fun q => q.AttributeName)).Nodup) :
    ((mods.filter (fun q => !decide (q.AttributeName = m.AttributeName)) ++ [m]).map
      (fun q => q.AttributeName)).Nodup := by
  rw [List.map_append, List.nodup_append]
  refine ⟨?_, by simp, ?_⟩
  · exact (List.Sublist.map _ (List.filter_sublist _)).nodup hn
  · intro a ha hb
    simp only [List.map_cons, List.map_nil, List.mem_singleton] at hb
    simp only [List.mem_map, List.mem_filter] at ha
    obtain ⟨q, ⟨_, hq⟩, rfl⟩ := ha
    simp [hb] at hq

/-- With pairwise distinct pre-existing attribute names the merge loop with
`bOverwriteExistingModifiers` completes and yields the merge as specified. -/
theorem AddModifiers_of_nodup (mods payload : List FGMCAttributeModifier)
    (hn : (mods.map (fun q => q.AttributeName)).Nodup) :
    AddModifiers true mods payload = some (MergedModifiersSpec mods payload) := by
  induction payload generalizing mods with
  | nil =>
    rw [AddModifiers_nil]
    simp [MergedModifiersSpec, LastPerAttribute]
  | cons m rest ih =>
    unfold AddModifiers
    rw [AddModifier_of_nodup mods m hn]
    simp only
    rw [ih _ (nodup_after_AddModifier mods m hn)]
    congr 1
    unfold MergedModifiersSpec
    rw [List.filter_append, List.filter_filter]
    by_cases hin : rest.any (fun p => decide (p.AttributeName = m.AttributeName)) = true
    · have h1 : [m].filter (fun q => !rest.any (fun p => decide (p.AttributeName = q.AttributeName)))
          = [] := by
        simp only [List.filter_cons, List.filter_nil, hin]
        rfl
      rw [h1, List.append_nil, LastPerAttribute, if_pos hin]
      congr 1
      apply List.filter_congr
      intro q _
      simp only [List.any_cons]
      by_cases hq : q.AttributeName = m.AttributeName
      · simp [hq]
      · have hq1 : ¬ m.AttributeName = q.AttributeName := fun h => hq h.symm
        simp [hq, hq1]
    · have h1 : [m].filter (fun q => !rest.any (fun p => decide (p.AttributeName = q.AttributeName)))
          = [m] := by
        simp only [List.filter_cons, List.filter_nil]
        simp only [Bool.not_eq_true] at hin
        simp [hin]
      rw [h1, LastPerAttribute, if_neg hin, List.append_assoc]
      congr 1
      apply List.filter_congr
      intro q _
      simp only [List.any_cons]
      by_cases hq : q.AttributeName = m.AttributeName
      · simp [hq]
      · have hq1 : ¬ m.AttributeName = q.AttributeName := fun h => hq h.symm
        simp [hq, hq1]

/-- `InitializeEffect` completes when the payload does not overwrite, or when
the pre-existing attribute names are pairwise distinct. -/
theorem InitializeEffect_completes (host : UGMC_AbilityComponent) (e : UGMCAbilityEffect)
    (bServerApplied : Bool) (data : FGMCAbilityEffectData)
    (h : data.bOverwriteExistingModifiers = false ∨
      (e.Modifiers.map (fun m => m.AttributeName)).Nodup) :
    ∃ e1, InitializeEffect host e bServerApplied data = some e1 := by
  cases hb : data.bOverwriteExistingModifiers
  · exact ⟨_, InitializeEffect_completes_of_no_overwrite host e bServerApplied data hb⟩
  · rcases h with h | h
    · rw [hb] at h; cases h
    · unfold InitializeEffect
      rw [hb, AddModifiers_of_nodup e.Modifiers data.Modifiers h]
      exact ⟨_, rfl⟩

theorem countApply_append (l1 l2 : List HostCall) :
    countApply (l1 ++ l2) = countApply l1 + countApply l2 :=
  List.countP_append _ _ _

theorem countApply_map_of_not_apply (f : FGameplayTag → HostCall)
    (hf : ∀ t, (f t).isApply = false) (l : List FGameplayTag) :
    countApply (l.map f) = 0 := by
  unfold countApply
  rw [List.countP_eq_zero]
  intro c hc
  obtain ⟨t, _, rfl⟩ := List.mem_map.1 hc
  simp [hf t]

/-- `InitializeEffect` writes only `Modifiers`, `StartTime`, `EndTime`, `Id` and
`bServerConfirmed`. -/
theorem InitializeEffect_frame (host : UGMC_AbilityComponent) (e e1 : UGMCAbilityEffect)
    (bServerApplied : Bool) (data : FGMCAbilityEffectData)
    (h : InitializeEffect host e bServerApplied data = some e1) :
    e1.EffectType = e.EffectType ∧ e1.Period = e.Period ∧ e1.Duration = e.Duration ∧
    e1.CurrentState = e.CurrentState ∧ e1.bHasStarted = e.bHasStarted ∧
    e1.bCompleted = e.bCompleted ∧
    e1.PeriodicApplicationTimer = e.PeriodicApplicationTimer ∧
    e1.GrantedTags = e.GrantedTags ∧ e1.GrantedAbilities = e.GrantedAbilities ∧
    e1.MustHaveTags = e.MustHaveTags ∧ e1.MustNotHaveTags = e.MustNotHaveTags ∧
    e1.EffectTag = e.EffectTag := by
  obtain ⟨mods, _, rfl⟩ := InitializeEffect_eq_some host e e1 bServerApplied data h
  unfold StampTimes
  dsimp only
  split
  · split <;> exact ⟨rfl, rfl, rfl, rfl, rfl, rfl, rfl, rfl, rfl, rfl, rfl, rfl⟩
  · split <;> exact ⟨rfl, rfl, rfl, rfl, rfl, rfl, rfl, rfl, rfl, rfl, rfl, rfl⟩

theorem gate_passes_iff (host : UGMC_AbilityComponent) (e : UGMCAbilityEffect) :
    GatePasses host e = true ↔
      (!CheckMustHaveTags host e || !CheckMustNotHaveTags host e) = false := by
  unfold GatePasses
  cases CheckMustHaveTags host e <;> cases CheckMustNotHaveTags host e <;> simp

theorem Tick_of_initialized (host : UGMC_AbilityComponent) (e : UGMCAbilityEffect) (dt : ℚ)
    (hs : e.CurrentState = EEffectState.Initialized) (hg : GatePasses host e = true) :
    Tick host e dt = CheckState host e := by
  rw [Tick_of_gate_passes host e dt ((gate_passes_iff host e).1 hg),
    TickPeriodicEffects_of_not_started e dt (by rw [hs]; simp)]
  simp

theorem UpdateState_of_same (e : UGMCAbilityEffect) (s : EEffectState)
    (h : e.CurrentState = s) (b : Bool) : UpdateState e s b = e := by
  obtain ⟨_, _, _, _, _, _, st, _, _, _, _, _, _, _, _, _, _⟩ := e
  simp only at h
  subst h
  rfl

theorem Tick_of_ended (host : UGMC_AbilityComponent) (e : UGMCAbilityEffect) (dt : ℚ)
    (hs : e.CurrentState = EEffectState.Ended) :
    Tick host e dt = ({ (EndEffect e).1 with bCompleted := true }, (EndEffect e).2) := by
  by_cases hg : (!CheckMustHaveTags host e || !CheckMustNotHaveTags host e) = true
  · rw [Tick_of_gate_fails host e dt hg, UpdateState_of_same e _ hs]
  · rw [Tick_of_gate_passes host e dt (by simpa using hg),
      TickPeriodicEffects_of_not_started e dt (by rw [hs]; simp),
      CheckState_of_ended host e hs]
    simp

theorem not_duplicate_iff (host : UGMC_AbilityComponent) (e : UGMCAbilityEffect) :
    ¬ HostsDuplicate host e ↔ DuplicateEffectAlreadyApplied host e = false := by
  rw [← DuplicateEffectAlreadyApplied_iff]
  simp

/-- A tick that activates: Initialized, gate passing, start time reached, no duplicate. -/
theorem Tick_of_activation (host : UGMC_AbilityComponent) (e : UGMCAbilityEffect) (dt : ℚ)
    (hs : e.CurrentState = EEffectState.Initialized) (hg : GatePasses host e = true)
    (ht : host.ActionTimer ≥ e.StartTime) (hd : ¬ HostsDuplicate host e) :
    Tick host e dt =
      ({ e with bHasStarted := true,
                CurrentState := if e.EffectType = EEffectType.Instant then EEffectState.Ended
                  else EEffectState.Started },
        activationCalls e) := by
  have hg1 := (gate_passes_iff host e).1 hg
  have hd1 := (not_duplicate_iff host e).1 hd
  rw [Tick_of_initialized host e dt hs hg,
    CheckState_of_activated host e hs ht (by rw [hg1, hd1]; rfl)]
  rfl

/-- `CheckState` writes only `CurrentState`, `bHasStarted` and `bCompleted`. -/
theorem CheckState_frame (host : UGMC_AbilityComponent) (e : UGMCAbilityEffect) :
    ∃ st hs co, (CheckState host e).1 =
      { e with CurrentState := st, bHasStarted := hs, bCompleted := co } := by
  cases hstate : e.CurrentState
  · by_cases ht : host.ActionTimer ≥ e.StartTime
    · cases hr : (!CheckMustHaveTags host e || !CheckMustNotHaveTags host e
          || DuplicateEffectAlreadyApplied host e)
      · rw [CheckState_of_activated host e hstate ht hr]
        exact ⟨_, true, e.bCompleted, rfl⟩
      · rw [CheckState_of_rejected host e hstate ht hr]
        exact ⟨EEffectState.Ended, e.bHasStarted, e.bCompleted, rfl⟩
    · rw [CheckState_of_waiting host e hstate ht]
      exact ⟨e.CurrentState, e.bHasStarted, e.bCompleted, rfl⟩
  · rw [CheckState_of_started host e hstate]
    dsimp only
    split
    · exact ⟨EEffectState.Ended, e.bHasStarted, e.bCompleted, rfl⟩
    · exact ⟨e.CurrentState, e.bHasStarted, e.bCompleted, rfl⟩
  · rw [CheckState_of_ended host e hstate, EndEffect_eq]
    exact ⟨EEffectState.Ended, e.bHasStarted, true, rfl⟩

/-- `Tick` writes only `CurrentState`, `bHasStarted`, `bCompleted` and
`PeriodicApplicationTimer`. -/
theorem Tick_frame (host : UGMC_AbilityComponent) (e : UGMCAbilityEffect) (dt : ℚ) :
    ∃ st hs co t, (Tick host e dt).1 =
      { e with CurrentState := st, bHasStarted := hs, bCompleted := co,
               PeriodicApplicationTimer := t } := by
  by_cases hg : (!CheckMustHaveTags host e || !CheckMustNotHaveTags host e) = true
  · rw [Tick_of_gate_fails host e dt hg, EndEffect_eq]
    exact ⟨EEffectState.Ended, e.bHasStarted, true, e.PeriodicApplicationTimer, rfl⟩
  · rw [Tick_of_gate_passes host e dt (by simpa using hg)]
    obtain ⟨t, ht, _⟩ := TickPeriodicEffects_frame e dt
    obtain ⟨st, hs, co, hc⟩ := CheckState_frame host (TickPeriodicEffects e dt).1
    refine ⟨st, hs, co, t, ?_⟩
    show (CheckState host (TickPeriodicEffects e dt).1).1 = _
    rw [hc, ht]

theorem EndEffect_frame (e : UGMCAbilityEffect) :
    (EndEffect e).1.StartTime = e.StartTime ∧ (EndEffect e).1.EndTime = e.EndTime ∧
    (EndEffect e).1.bServerConfirmed = e.bServerConfirmed := by
  rw [EndEffect_eq]
  exact ⟨rfl, rfl, rfl⟩

theorem Tick_stamp (host : UGMC_AbilityComponent) (e : UGMCAbilityEffect) (dt : ℚ) :
    (Tick host e dt).1.StartTime = e.StartTime ∧ (Tick host e dt).1.EndTime = e.EndTime ∧
    (Tick host e dt).1.bServerConfirmed = e.bServerConfirmed := by
  obtain ⟨st, hs, co, t, h⟩ := Tick_frame host e dt
  rw [h]
  exact ⟨rfl, rfl, rfl⟩

theorem step_stamp (s : UGMCAbilityEffect × List HostCall) (c : LifecycleCall) :
    (step s c).1.StartTime = s.1.StartTime ∧ (step s c).1.EndTime = s.1.EndTime ∧
    (step s c).1.bServerConfirmed = s.1.bServerConfirmed := by
  cases c with
  | Tick host dt => exact Tick_stamp host s.1 dt
  | EndEffect => exact EndEffect_frame s.1

theorem run_stamp (e : UGMCAbilityEffect) (calls : List LifecycleCall) :
    (run e calls).1.StartTime = e.StartTime ∧ (run e calls).1.EndTime = e.EndTime ∧
    (run e calls).1.bServerConfirmed = e.bServerConfirmed := by
  induction calls using List.reverseRecOn with
  | nil => exact ⟨rfl, rfl, rfl⟩
  | append_singleton l c ih =>
    rw [run_append_singleton]
    obtain ⟨h1, h2, h3⟩ := step_stamp (run e l) c
    exact ⟨h1.trans ih.1, h2.trans ih.2.1, h3.trans ih.2.2⟩

theorem StampTimes_confirmed (host : UGMC_AbilityComponent) (e : UGMCAbilityEffect)
    (bServerApplied : Bool) (data : FGMCAbilityEffectData)
    (h : e.bServerConfirmed = true) :
    (StampTimes host e bServerApplied data).bServerConfirmed = true := by
  unfold StampTimes
  dsimp only
  split
  · split <;> rfl
  · split
    · exact h
    · rfl

theorem CheckState_of_started_timer (host : UGMC_AbilityComponent) (e : UGMCAbilityEffect)
    (hs : e.CurrentState = EEffectState.Started) :
    (CheckState host e).2 = [] ∧
    (CheckState host e).1.PeriodicApplicationTimer = e.PeriodicApplicationTimer ∧
    (CheckState host e).1.Period = e.Period ∧
    (CheckState host e).1.bCompleted = e.bCompleted ∧
    (CheckState host e).1.CurrentState =
      if e.EffectType = EEffectType.Duration ∧ host.ActionTimer ≥ e.EndTime
        then EEffectState.Ended else EEffectState.Started := by
  rw [CheckState_of_started host e hs]
  dsimp only
  split
  · exact ⟨rfl, rfl, rfl, rfl, rfl⟩
  · exact ⟨rfl, rfl, rfl, rfl, hs⟩

/-- One tick of a started periodic effect whose gate passes. -/
theorem Tick_of_started_periodic (host : UGMC_AbilityComponent) (e : UGMCAbilityEffect)
    (dt : ℚ) (hs : e.CurrentState = EEffectState.Started) (hp : e.Period ≠ 0)
    (hg : GatePasses host e = true) :
    (Tick host e dt).2 =
      (if e.PeriodicApplicationTimer + dt ≥ e.Period
        then [HostCall.ApplyAbilityEffectModifiers] else []) ∧
    (Tick host e dt).1.PeriodicApplicationTimer =
      (if e.PeriodicApplicationTimer + dt ≥ e.Period then 0
        else e.PeriodicApplicationTimer + dt) ∧
    (Tick host e dt).1.Period = e.Period := by
  rw [Tick_of_gate_passes host e dt ((gate_passes_iff host e).1 hg)]
  have hst : (TickPeriodicEffects e dt).1.CurrentState = EEffectState.Started := by
    rw [TickPeriodicEffects_state, hs]
  obtain ⟨h1, h2, h3, _, _⟩ := CheckState_of_started_timer host _ hst
  dsimp only
  rw [h1, h2, h3, TickPeriodicEffects_of_started e dt hp hs]
  split <;> exact ⟨rfl, rfl, rfl⟩

/-- Along ticks of a started periodic effect with passing gate and non-negative
deltas, the timer stays in `[0, Period)` once it has started non-negative. -/
theorem timer_bounds (e : UGMCAbilityEffect) (ticks : List (UGMC_AbilityComponent × ℚ))
    (hP : 0 < e.Period) (h0 : 0 ≤ e.PeriodicApplicationTimer)
    (hsuch : ∀ n p, ticks[n]? = some p →
      (runTicks e (ticks.take n)).1.CurrentState = EEffectState.Started ∧
      GatePasses p.1 (runTicks e (ticks.take n)).1 = true ∧ 0 ≤ p.2) :
    (runTicks e ticks).1.Period = e.Period ∧
    0 ≤ (runTicks e ticks).1.PeriodicApplicationTimer ∧
    (ticks ≠ [] → (runTicks e ticks).1.PeriodicApplicationTimer < e.Period) := by
  induction ticks using List.reverseRecOn with
  | nil => exact ⟨rfl, h0, fun h => absurd rfl h⟩
  | append_singleton l p ih =>
    have hsuch1 : ∀ n q, l[n]? = some q →
        (runTicks e (l.take n)).1.CurrentState = EEffectState.Started ∧
        GatePasses q.1 (runTicks e (l.take n)).1 = true ∧ 0 ≤ q.2 := by
      intro n q hq
      have hn : n < l.length := by
        by_contra hc
        rw [List.getElem?_eq_none (by omega)] at hq
        cases hq
      have := hsuch n q (by rw [List.getElem?_append_left hn]; exact hq)
      rwa [List.take_append_of_le_length (le_of_lt hn)] at this
    obtain ⟨iP, i0, _⟩ := ih hsuch1
    have hlast := hsuch l.length p (by simp)
    rw [List.take_append_of_le_length (le_refl _), List.take_length] at hlast
    obtain ⟨hs, hg, hd⟩ := hlast
    have hne : (runTicks e l).1.Period ≠ 0 := by rw [iP]; exact ne_of_gt hP
    obtain ⟨_, ht, hper⟩ := Tick_of_started_periodic p.1 (runTicks e l).1 p.2 hs hne hg
    rw [runTicks_append_singleton]
    show (Tick p.1 (runTicks e l).1 p.2).1.Period = e.Period ∧
      0 ≤ (Tick p.1 (runTicks e l).1 p.2).1.PeriodicApplicationTimer ∧
      (l ++ [p] ≠ [] → (Tick p.1 (runTicks e l).1 p.2).1.PeriodicApplicationTimer < e.Period)
    rw [ht, hper, iP]
    refine ⟨rfl, ?_, fun _ => ?_⟩
    · split
      · exact le_refl _
      · linarith
    · split
      · exact hP
      · rename_i hf
        exact lt_of_not_ge hf

theorem countApply_of_revoke (l : List HostCall) (h : ∀ c ∈ l, c.isRevoke = true) :
    countApply l = 0 := by
  unfold countApply
  rw [List.countP_eq_zero]
  intro c hc
  have := h c hc
  cases c <;> simp_all [HostCall.isApply, HostCall.isRevoke]

theorem countApply_EndEffect (e : UGMCAbilityEffect) : countApply (EndEffect e).2 = 0 :=
  countApply_of_revoke _ (EndEffect_calls_revoke e)

theorem countApply_activationCalls (e : UGMCAbilityEffect) (hp : e.Period ≠ 0) :
    countApply (AddTagsToOwner e ++ AddAbilitiesToOwner e ++
      (if e.Period = 0 then [HostCall.ApplyAbilityEffectModifiers] else [])) = 0 := by
  rw [if_neg hp, List.append_nil, countApply_append]
  unfold AddTagsToOwner AddAbilitiesToOwner
  rw [countApply_map_of_not_apply HostCall.AddActiveTag (fun _ => rfl),
    countApply_map_of_not_apply HostCall.GrantAbilityByTag (fun _ => rfl)]

/-- A tick of an Instant effect with a period that is not Started applies no
modifiers and does not start it. -/
theorem Tick_instant_periodic (host : UGMC_AbilityComponent) (e : UGMCAbilityEffect) (dt : ℚ)
    (hT : e.EffectType = EEffectType.Instant) (hP : e.Period ≠ 0)
    (hS : e.CurrentState ≠ EEffectState.Started) :
    (Tick host e dt).1.CurrentState ≠ EEffectState.Started ∧
    countApply (Tick host e dt).2 = 0 := by
  by_cases hg : (!CheckMustHaveTags host e || !CheckMustNotHaveTags host e) = true
  · rw [Tick_of_gate_fails host e dt hg]
    refine ⟨?_, countApply_EndEffect _⟩
    show (EndEffect (UpdateState e EEffectState.Ended true)).1.CurrentState ≠ _
    rw [EndEffect_state]
    simp
  · rw [Tick_of_gate_passes host e dt (by simpa using hg),
      TickPeriodicEffects_of_not_started e dt hS]
    dsimp only
    rw [List.nil_append]
    cases hstate : e.CurrentState
    · by_cases ht : host.ActionTimer ≥ e.StartTime
      · cases hr : (!CheckMustHaveTags host e || !CheckMustNotHaveTags host e
            || DuplicateEffectAlreadyApplied host e)
        · rw [CheckState_of_activated host e hstate ht hr]
          refine ⟨?_, countApply_activationCalls e hP⟩
          simp [hT]
        · rw [CheckState_of_rejected host e hstate ht hr]
          exact ⟨by simp [UpdateState], rfl⟩
      · rw [CheckState_of_waiting host e hstate ht]
        exact ⟨by simp [hstate], rfl⟩
    · exact absurd hstate hS
    · rw [CheckState_of_ended host e hstate]
      refine ⟨?_, countApply_EndEffect e⟩
      show (EndEffect e).1.CurrentState ≠ _
      rw [EndEffect_state]
      simp

theorem step_instant_periodic (s : UGMCAbilityEffect × List HostCall) (c : LifecycleCall)
    (hT : s.1.EffectType = EEffectType.Instant) (hP : s.1.Period ≠ 0)
    (hS : s.1.CurrentState ≠ EEffectState.Started) :
    (step s c).1.EffectType = EEffectType.Instant ∧ (step s c).1.Period ≠ 0 ∧
    (step s c).1.CurrentState ≠ EEffectState.Started ∧
    countApply (step s c).2 = countApply s.2 := by
  cases c with
  | Tick host dt =>
    obtain ⟨h1, h2⟩ := Tick_instant_periodic host s.1 dt hT hP hS
    obtain ⟨st, hs, co, t, hfr⟩ := Tick_frame host s.1 dt
    refine ⟨?_, ?_, h1, ?_⟩
    · show (Tick host s.1 dt).1.EffectType = _
      rw [hfr]; exact hT
    · show (Tick host s.1 dt).1.Period ≠ 0
      rw [hfr]; exact hP
    · show countApply (s.2 ++ (Tick host s.1 dt).2) = _
      rw [countApply_append, h2]; rfl
  | EndEffect =>
    refine ⟨?_, ?_, ?_, ?_⟩
    · show (EndEffect s.1).1.EffectType = _
      rw [EndEffect_eq]; exact hT
    · show (EndEffect s.1).1.Period ≠ 0
      rw [EndEffect_eq]; exact hP
    · show (EndEffect s.1).1.CurrentState ≠ _
      rw [EndEffect_state]; simp
    · show countApply (s.2 ++ (EndEffect s.1).2) = _
      rw [countApply_append, countApply_EndEffect]; rfl

theorem run_instant_periodic (e : UGMCAbilityEffect) (calls : List LifecycleCall)
    (hT : e.EffectType = EEffectType.Instant) (hP : e.Period ≠ 0)
    (hS : e.CurrentState ≠ EEffectState.Started) :
    (run e calls).1.EffectType = EEffectType.Instant ∧ (run e calls).1.Period ≠ 0 ∧
    (run e calls).1.CurrentState ≠ EEffectState.Started ∧
    countApply (run e calls).2 = 0 := by
  induction calls using List.reverseRecOn with
  | nil => exact ⟨hT, hP, hS, rfl⟩
  | append_singleton l c ih =>
    rw [run_append_singleton]
    obtain ⟨i1, i2, i3, i4⟩ := ih
    obtain ⟨h1, h2, h3, h4⟩ := step_instant_periodic (run e l) c i1 i2 i3
    exact ⟨h1, h2, h3, h4.trans i4⟩

/-! ## The claims -/

/-- C1: a single `Tick` or `EndEffect` changes `CurrentState` only along the
forward steps (Initialized to any state, Started to Started or Ended, Ended to
Ended), `EndEffect` always ends in Ended, and a `Tick` takes an Initialized
effect to Started only when the owner's `ActionTimer` is at least `StartTime`. -/
theorem C1_state_moves_forward (host : UGMC_AbilityComponent) (e : UGMCAbilityEffect)
    (DeltaTime : ℚ) :
    ForwardStep e.CurrentState (Tick host e DeltaTime).1.CurrentState = true ∧
    (EndEffect e).1.CurrentState = EEffectState.Ended ∧
    ForwardStep e.CurrentState (EndEffect e).1.CurrentState = true ∧
    (e.CurrentState = EEffectState.Initialized →
      (Tick host e DeltaTime).1.CurrentState = EEffectState.Started →
      host.ActionTimer ≥ e.StartTime) := by
  have hEnd := EndEffect_state e
  refine ⟨?_, hEnd, ?_, ?_⟩
  · by_cases hg : (!CheckMustHaveTags host e || !CheckMustNotHaveTags host e) = true
    · rw [Tick_of_gate_fails host e DeltaTime hg]
      show ForwardStep e.CurrentState
        (EndEffect (UpdateState e EEffectState.Ended true)).1.CurrentState = true
      rw [EndEffect_state]
      cases e.CurrentState <;> rfl
    · rw [Tick_of_gate_passes host e DeltaTime (by simpa using hg)]
      have := (CheckState_forward host (TickPeriodicEffects e DeltaTime).1).1
      rw [TickPeriodicEffects_state] at this
      exact this
  · rw [hEnd]; cases e.CurrentState <;> rfl
  · intro hi hs
    by_cases hg : (!CheckMustHaveTags host e || !CheckMustNotHaveTags host e) = true
    · rw [Tick_of_gate_fails host e DeltaTime hg] at hs
      have h2 : (EndEffect (UpdateState e EEffectState.Ended true)).1.CurrentState
          = EEffectState.Started := hs
      rw [EndEffect_state] at h2
      cases h2
    · rw [Tick_of_gate_passes host e DeltaTime (by simpa using hg)] at hs
      have := (CheckState_forward host (TickPeriodicEffects e DeltaTime).1).2
      rw [TickPeriodicEffects_state, TickPeriodicEffects_StartTime] at this
      exact this hi hs

/-- C1, at the sample effect: the tick at time 5 starts the effect stamped to start at 0. -/
theorem C1_state_moves_forward_witness :
    (Tick sampleHost sampleEffect 1).1.CurrentState = EEffectState.Started ∧
    sampleHost.ActionTimer ≥ sampleEffect.StartTime :=
  ⟨by decide, (C1_state_moves_forward sampleHost sampleEffect 1).2.2.2 (by decide) (by decide)⟩

/-- C2: when the tag gate fails at the start of a `Tick` (a must-have tag is not
active on the owner, or a must-not-have tag is), then whatever the state, the
period and the delta, the tick issues no `ApplyAbilityEffectModifiers`, no
`AddActiveTag` and no `GrantAbilityByTag`, and ends with `CurrentState` Ended
and `bCompleted` true. -/
theorem C2_gate_failure_preempts (host : UGMC_AbilityComponent) (e : UGMCAbilityEffect)
    (DeltaTime : ℚ)
    (hgate : (∃ t ∈ e.MustHaveTags, host.HasActiveTag t = false) ∨
      (∃ t ∈ e.MustNotHaveTags, host.HasActiveTag t = true)) :
    HostCall.ApplyAbilityEffectModifiers ∉ (Tick host e DeltaTime).2 ∧
    (∀ c ∈ (Tick host e DeltaTime).2, c.isGrant = false) ∧
    (Tick host e DeltaTime).1.CurrentState = EEffectState.Ended ∧
    (Tick host e DeltaTime).1.bCompleted = true := by
  rw [Tick_of_gate_fails host e DeltaTime ((gate_fails_iff host e).1 hgate)]
  refine ⟨?_, ?_, ?_, rfl⟩
  · intro hc
    have := EndEffect_calls_revoke _ _ hc
    cases this
  · intro c hc
    have := EndEffect_calls_revoke _ _ hc
    cases c <;> first | rfl | cases this
  · exact EndEffect_state _

/-- C2, at a started periodic effect whose must-have tag is missing on the owner. -/
theorem C2_gate_failure_preempts_witness :
    (Tick sampleHost sampleGated 3).1.CurrentState = EEffectState.Ended ∧
    (Tick sampleHost sampleGated 3).1.bCompleted = true :=
  (C2_gate_failure_preempts sampleHost sampleGated 3
    (Or.inl ⟨tagStunned, by decide, by decide⟩)).2.2

/-- C3 (amended): on an effect that begins with `bHasStarted` and `bCompleted`
false (in particular a fresh Initialized one), after any sequence of `Tick` and
`EndEffect` calls with any owner states: the call that
first makes `bCompleted` true leaves as many `AddActiveTag` as `RemoveActiveTag`
calls issued; in every state with `bCompleted` true the `RemoveActiveTag` calls
are at least as many as the `AddActiveTag` calls; both numbers are 0 when
`bHasStarted` is false in the state reached; and once `bHasStarted` is true it
stays true, so it is false in the state reached exactly when it never became
true. -/
theorem C3_teardown_symmetry (e : UGMCAbilityEffect) (calls : List LifecycleCall)
    (hb : e.bHasStarted = false) (hc : e.bCompleted = false) :
    (∀ c : LifecycleCall, (run e calls).1.bCompleted = false →
      (run e (calls ++ [c])).1.bCompleted = true →
      countAddActiveTag (run e (calls ++ [c])).2
        = countRemoveActiveTag (run e (calls ++ [c])).2) ∧
    ((run e calls).1.bCompleted = true →
      countAddActiveTag (run e calls).2 ≤ countRemoveActiveTag (run e calls).2) ∧
    ((run e calls).1.bHasStarted = false →
      countAddActiveTag (run e calls).2 = 0 ∧ countRemoveActiveTag (run e calls).2 = 0) ∧
    (∀ pre post : List LifecycleCall, calls = pre ++ post →
      (run e pre).1.bHasStarted = true → (run e calls).1.bHasStarted = true) := by
  have hinv := TeardownInv_run e calls hb hc
  refine ⟨?_, fun h => (hinv.2.2.2.2 h).2, hinv.2.1, ?_⟩
  swap
  · intro pre post hcalls hpre
    rw [hcalls]
    unfold run at hpre ⊢
    rw [List.foldl_append]
    exact bHasStarted_foldl post _ hpre
  intro c hpre hpost
  rw [run_append_singleton] at hpost ⊢
  obtain ⟨out, hlog, hG, hcase⟩ := step_summary (run e calls) c
  obtain ⟨iG, i1, i2, i3, _⟩ := hinv
  have hadd : countAddActiveTag (step (run e calls) c).2
      = countAddActiveTag (run e calls).2 + countAddActiveTag out := by
    rw [hlog]; exact List.countP_append _ _ _
  have hrem : countRemoveActiveTag (step (run e calls) c).2
      = countRemoveActiveTag (run e calls).2 + countRemoveActiveTag out := by
    rw [hlog]; exact List.countP_append _ _ _
  rw [hadd, hrem, i3 hpre]
  rcases hcase with ⟨_, _, _, hc1, _, _⟩ | ⟨_, _, _, ha, hr⟩ | ⟨_, hc1, _, _, _, _⟩
  · rw [hc1, hpre] at hpost; cases hpost
  · rw [ha, hr]
    cases hbs : (run e calls).1.bHasStarted
    · simp [(i1 hbs).1]
    · simp [(i2 hbs).1, iG]
  · rw [hc1, hpre] at hpost; cases hpost

/-- C3, at the sample effect: started by a tick, then ended by `EndEffect`. -/
theorem C3_teardown_symmetry_witness :
    countAddActiveTag (run sampleEffect
        ([LifecycleCall.Tick sampleHost 1] ++ [LifecycleCall.EndEffect])).2
      = countRemoveActiveTag (run sampleEffect
        ([LifecycleCall.Tick sampleHost 1] ++ [LifecycleCall.EndEffect])).2 :=
  (C3_teardown_symmetry sampleEffect [LifecycleCall.Tick sampleHost 1]
    (by decide) (by decide)).1 LifecycleCall.EndEffect (by decide) (by decide)

/-- C3 as stated fails: the sample effect is started at time 5, reaches its
`EndTime` and is torn down at time 20 (`bCompleted` true, one `AddActiveTag` and
one `RemoveActiveTag` issued), and one more tick issues `RemoveActiveTag` again. -/
theorem C3_counterexample :
    sampleEffect.CurrentState = EEffectState.Initialized ∧
    sampleEffect.bHasStarted = false ∧ sampleEffect.bCompleted = false ∧
    (run sampleEffect [LifecycleCall.Tick sampleHost 1, LifecycleCall.Tick sampleHostLate 1,
      LifecycleCall.Tick sampleHostLate 1, LifecycleCall.Tick sampleHostLate 1]).1.bCompleted
      = true ∧
    countAddActiveTag (run sampleEffect [LifecycleCall.Tick sampleHost 1,
      LifecycleCall.Tick sampleHostLate 1, LifecycleCall.Tick sampleHostLate 1,
      LifecycleCall.Tick sampleHostLate 1]).2 = 1 ∧
    countRemoveActiveTag (run sampleEffect [LifecycleCall.Tick sampleHost 1,
      LifecycleCall.Tick sampleHostLate 1, LifecycleCall.Tick sampleHostLate 1,
      LifecycleCall.Tick sampleHostLate 1]).2 = 2 := by
  decide

/-- C4 (amended): a second `EndEffect` in a row changes no field of the effect;
it issues no call when `bHasStarted` is false, and when `bHasStarted` is true it
issues again exactly the calls the first one issued. -/
theorem C4_EndEffect_twice (e : UGMCAbilityEffect) :
    (EndEffect (EndEffect e).1).1 = (EndEffect e).1 ∧
    (EndEffect (EndEffect e).1).2 = (EndEffect e).2 ∧
    (e.bHasStarted = false → (EndEffect (EndEffect e).1).2 = []) ∧
    (e.bHasStarted = true → (EndEffect (EndEffect e).1).2 = teardownCalls e) := by
  rw [EndEffect_eq (EndEffect e).1, EndEffect_eq e]
  refine ⟨rfl, ?_, ?_, ?_⟩
  · rfl
  · intro h; simp [h]
  · intro h; simp [h]; rfl

/-- C4, at the sample effect, which has not started. -/
theorem C4_EndEffect_twice_witness :
    (EndEffect (EndEffect sampleEffect).1).2 = [] :=
  (C4_EndEffect_twice sampleEffect).2.2.1 (by decide)

/-- C4 as stated fails: on a started effect the second `EndEffect` issues
`RemoveActiveTag` and `RemoveActiveAbilityModifiers` again. -/
theorem C4_counterexample :
    (EndEffect (EndEffect sampleRunning).1).2
      = [HostCall.RemoveActiveTag tagBurning, HostCall.RemoveActiveAbilityModifiers] ∧
    (EndEffect sampleRunning).2 ++ (EndEffect (EndEffect sampleRunning).1).2
      ≠ (EndEffect sampleRunning).2 := by
  decide

/-- C5: on an owner with authority `InitializeEffect` completes when the
payload does not overwrite or the pre-existing attribute names are pairwise
distinct, and whenever it completes: `bServerConfirmed` is true; with
`bServerApplied` the window is `StartTime - ActionTimer = 1/4` and
`EndTime - StartTime = Duration`; without it `StartTime = ActionTimer` and
`EndTime = ActionTimer + Duration`; and replacing the payload's
`ServerStartTime` and `ServerEndTime` by any other values gives the same effect. -/
theorem C5_authority_stamp (host : UGMC_AbilityComponent) (e : UGMCAbilityEffect)
    (bServerApplied : Bool) (data : FGMCAbilityEffectData)
    (hAuth : host.HasAuthority = true) :
    ((data.bOverwriteExistingModifiers = false ∨
        (e.Modifiers.map (fun m => m.AttributeName)).Nodup) →
      ∃ e1, InitializeEffect host e bServerApplied data = some e1) ∧
    (∀ e1, InitializeEffect host e bServerApplied data = some e1 →
      e1.bServerConfirmed = true ∧
      (bServerApplied = true →
        e1.StartTime - host.ActionTimer = 1 / 4 ∧ e1.EndTime - e1.StartTime = e.Duration) ∧
      (bServerApplied = false →
        e1.StartTime = host.ActionTimer ∧ e1.EndTime = host.ActionTimer + e.Duration) ∧
      (∀ s t : ℚ, InitializeEffect host e bServerApplied
        { data with ServerStartTime := s, ServerEndTime := t } = some e1)) := by
  refine ⟨InitializeEffect_completes host e bServerApplied data, ?_⟩
  intro e1 hInit
  obtain ⟨mods, hm, rfl⟩ := InitializeEffect_eq_some host e e1 bServerApplied data hInit
  refine ⟨?_, ?_, ?_, ?_⟩
  · cases bServerApplied <;> simp [StampTimes, hAuth]
  · intro hb
    subst hb
    simp only [StampTimes, hAuth, if_true]
    constructor <;> ring
  · intro hb
    subst hb
    simp [StampTimes, hAuth]
  · intro s t
    unfold InitializeEffect
    simp only [hm]
    cases bServerApplied <;> simp [StampTimes, hAuth]

/-- C5, at the sample effect (duration 10) staged by the authority at time 5. -/
theorem C5_authority_stamp_witness :
    (StampTimes sampleHost sampleEffect true samplePayload).StartTime - sampleHost.ActionTimer
      = 1 / 4 ∧
    (StampTimes sampleHost sampleEffect true samplePayload).EndTime
      - (StampTimes sampleHost sampleEffect true samplePayload).StartTime
      = sampleEffect.Duration :=
  ((C5_authority_stamp sampleHost sampleEffect true samplePayload (by decide)).2
    (StampTimes sampleHost sampleEffect true samplePayload) rfl).2.1 rfl

/-- C6: on an owner without authority, when the payload is not the default one
or `bServerApplied` is true, `InitializeEffect` completes when the payload does
not overwrite or the pre-existing attribute names are pairwise distinct, and
whenever it completes: `StartTime`, `EndTime` and `Id` are the payload's
`ServerStartTime`, `ServerEndTime` and `EffectID` and `bServerConfirmed` is
true; with any other `ActionTimer` and `Duration` the call gives the same
effect up to its `Duration`. -/
theorem C6_client_adopts_server_data (host : UGMC_AbilityComponent) (e : UGMCAbilityEffect)
    (bServerApplied : Bool) (data : FGMCAbilityEffectData)
    (hAuth : host.HasAuthority = false)
    (hData : data ≠ FGMCAbilityEffectData.Default ∨ bServerApplied = true) :
    ((data.bOverwriteExistingModifiers = false ∨
        (e.Modifiers.map (fun m => m.AttributeName)).Nodup) →
      ∃ e1, InitializeEffect host e bServerApplied data = some e1) ∧
    (∀ e1, InitializeEffect host e bServerApplied data = some e1 →
      e1.StartTime = data.ServerStartTime ∧ e1.EndTime = data.ServerEndTime ∧
      e1.Id = data.EffectID ∧ e1.bServerConfirmed = true ∧
      (∀ timer duration : ℚ,
        InitializeEffect { host with ActionTimer := timer } { e with Duration := duration }
          bServerApplied data = some { e1 with Duration := duration })) := by
  refine ⟨InitializeEffect_completes host e bServerApplied data, ?_⟩
  intro e1 hInit
  obtain ⟨mods, hm, rfl⟩ := InitializeEffect_eq_some host e e1 bServerApplied data hInit
  have hcond : ¬ (data = FGMCAbilityEffectData.Default ∧ bServerApplied = false) := by
    rintro ⟨h1, h2⟩
    rcases hData with h | h
    · exact h h1
    · rw [h2] at h; cases h
  have hAuth1 : host.bHasAuthority = false := hAuth
  refine ⟨?_, ?_, ?_, ?_, ?_⟩
  · simp [StampTimes, hAuth, hcond]
  · simp [StampTimes, hAuth, hcond]
  · simp [StampTimes, hAuth, hcond]
  · simp [StampTimes, hAuth, hcond]
  · intro timer duration
    unfold InitializeEffect
    simp only [hm]
    simp [StampTimes, UGMC_AbilityComponent.HasAuthority, hAuth1, hcond]

/-- C6, at the sample effect receiving the sample payload on a client. -/
theorem C6_client_adopts_server_data_witness :
    (StampTimes sampleClient sampleEffect false samplePayload).StartTime = 7 ∧
    (StampTimes sampleClient sampleEffect false samplePayload).EndTime = 17 ∧
    (StampTimes sampleClient sampleEffect false samplePayload).Id = 42 ∧
    (StampTimes sampleClient sampleEffect false samplePayload).bServerConfirmed = true :=
  have h := (C6_client_adopts_server_data sampleClient sampleEffect false samplePayload
    (by decide) (Or.inl (by decide))).2
    (StampTimes sampleClient sampleEffect false samplePayload) (by decide)
  ⟨h.1, h.2.1, h.2.2.1, h.2.2.2.1⟩

/-- C7: on an owner without authority, `InitializeEffect` with the default
payload and `bServerApplied` false completes, stamps `StartTime = ActionTimer`
and `EndTime = ActionTimer + Duration` and changes no other field, so
`bServerConfirmed` and `Id` keep their values. -/
theorem C7_client_prediction (host : UGMC_AbilityComponent) (e : UGMCAbilityEffect)
    (hAuth : host.HasAuthority = false) :
    InitializeEffect host e false FGMCAbilityEffectData.Default =
      some { e with StartTime := host.ActionTimer,
                    EndTime := host.ActionTimer + e.Duration } ∧
    (∀ e1, InitializeEffect host e false FGMCAbilityEffectData.Default = some e1 →
      e1.StartTime = host.ActionTimer ∧ e1.EndTime = host.ActionTimer + e.Duration ∧
      e1.bServerConfirmed = e.bServerConfirmed ∧ e1.Id = e.Id ∧
      (e.bServerConfirmed = false → e1.bServerConfirmed = false)) := by
  have h : InitializeEffect host e false FGMCAbilityEffectData.Default =
      some { e with StartTime := host.ActionTimer,
                    EndTime := host.ActionTimer + e.Duration } := by
    unfold InitializeEffect
    rw [show FGMCAbilityEffectData.Default.Modifiers = [] from rfl, AddModifiers_nil]
    simp [StampTimes, hAuth]
  refine ⟨h, ?_⟩
  intro e1 h1
  rw [h] at h1
  cases h1
  exact ⟨rfl, rfl, rfl, rfl, fun h => h⟩

/-- C7, at the sample effect (duration 10) predicted on a client at time 5. -/
theorem C7_client_prediction_witness :
    InitializeEffect sampleClient sampleEffect false FGMCAbilityEffectData.Default =
      some { sampleEffect with StartTime := sampleClient.ActionTimer,
                               EndTime := sampleClient.ActionTimer + sampleEffect.Duration } :=
  (C7_client_prediction sampleClient sampleEffect (by decide)).1

/-- C8 (amended): for a period `P > 0`, a natural `k` and non-negative tick
deltas summing to `k * P`, on an effect with `PeriodicApplicationTimer = 0` that
is Started before the first tick and after every tick,
`ApplyAbilityEffectModifiers` is invoked at most `k` times and at most once per
tick, and exactly `k` times when every delta equals `P`. -/
theorem C8_periodic_cadence (e : UGMCAbilityEffect) (P : ℚ) (k : ℕ)
    (ticks : List (UGMC_AbilityComponent × ℚ))
    (hP : 0 < P) (hPer : e.Period = P) (hT : e.PeriodicApplicationTimer = 0)
    (hd : ∀ p ∈ ticks, 0 ≤ p.2)
    (hsum : (ticks.map Prod.snd).sum = k * P)
    (hstay : ∀ n ≤ ticks.length,
      (runTicks e (ticks.take n)).1.CurrentState = EEffectState.Started) :
    countApply (runTicks e ticks).2 ≤ k ∧
    countApply (runTicks e ticks).2 ≤ ticks.length ∧
    ((∀ p ∈ ticks, p.2 = P) → countApply (runTicks e ticks).2 = k) := by
  obtain ⟨_, i0, iacc, ilen, iuni⟩ := cadence_invariant e P hP hPer hT ticks hd hstay
  refine ⟨?_, ilen, ?_⟩
  · rw [hsum] at iacc
    have h1 : (countApply (runTicks e ticks).2 : ℚ) * P ≤ (k : ℚ) * P := by linarith
    have h2 : (countApply (runTicks e ticks).2 : ℚ) ≤ (k : ℚ) := le_of_mul_le_mul_right h1 hP
    exact_mod_cast h2
  · intro hu
    rw [(iuni hu).2]
    have hs := sum_of_uniform P ticks hu
    rw [hs] at hsum
    have := mul_right_cancel₀ (ne_of_gt hP) hsum
    exact_mod_cast this

/-- C8 as stated fails: with period 1 a single tick of delta 3 (so `k = 3`)
keeps the effect Started and invokes `ApplyAbilityEffectModifiers` once. -/
theorem C8_counterexample :
    samplePeriodic.Period = 1 ∧ samplePeriodic.PeriodicApplicationTimer = 0 ∧
    samplePeriodic.CurrentState = EEffectState.Started ∧
    ([(sampleHost, (3 : ℚ))].map Prod.snd).sum = ((3 : ℕ) : ℚ) * 1 ∧
    (runTicks samplePeriodic [(sampleHost, 3)]).1.CurrentState = EEffectState.Started ∧
    countApply (runTicks samplePeriodic [(sampleHost, 3)]).2 = 1 := by
  decide!

/-- C8, at the periodic sample effect ticked twice by exactly one period. -/
theorem C8_periodic_cadence_witness :
    countApply (runTicks samplePeriodic [(sampleHost, 1), (sampleHost, 1)]).2 = 2 :=
  (C8_periodic_cadence samplePeriodic 1 2 [(sampleHost, 1), (sampleHost, 1)]
    (by norm_num) rfl rfl (by simp) (by norm_num)
    (by intro n hn
        simp only [List.length_cons, List.length_nil] at hn
        interval_cases n <;> decide!)).2.2 (by simp)

/-- C9, the code at a failing input: with pre-existing modifiers of attributes
1, 1, 2 and a payload overwriting attribute 1, the removal loop deletes index 0
and then the stale index 1, so a pre-existing modifier of attribute 1 survives
and the modifier of attribute 2 is lost, where the merge as specified keeps the
modifier of attribute 2 and the payload's modifier only. -/
theorem C9_failing_input :
    (InitializeEffect sampleHost sampleModified false sampleOverwrite).map
        (fun e => e.Modifiers) = some [⟨1, 6⟩, ⟨1, 9⟩] ∧
    MergedModifiersSpec sampleModified.Modifiers sampleOverwrite.Modifiers
      = [⟨2, 7⟩, ⟨1, 9⟩] := by
  decide

/-- C10: for an Initialized effect whose gate passes and whose owner's
`ActionTimer` has reached `StartTime`: without a hosted duplicate the tick sets
`bHasStarted` and issues exactly the activation calls; with a hosted duplicate
it ends in Ended, leaves `bHasStarted` as it was and issues no call; so for an
effect not yet started the tick activates it if and only if no duplicate is
hosted, and an empty `EffectTag` never suppresses activation. -/
theorem C10_duplicate_suppresses_activation (host : UGMC_AbilityComponent)
    (e : UGMCAbilityEffect) (DeltaTime : ℚ)
    (hState : e.CurrentState = EEffectState.Initialized)
    (hGate : GatePasses host e = true)
    (hTime : host.ActionTimer ≥ e.StartTime) :
    (¬ HostsDuplicate host e →
      (Tick host e DeltaTime).1.bHasStarted = true ∧
      (Tick host e DeltaTime).2 = activationCalls e) ∧
    (HostsDuplicate host e →
      (Tick host e DeltaTime).1.CurrentState = EEffectState.Ended ∧
      (Tick host e DeltaTime).1.bHasStarted = e.bHasStarted ∧
      (Tick host e DeltaTime).2 = []) ∧
    (e.bHasStarted = false →
      ((Tick host e DeltaTime).1.bHasStarted = true ↔ ¬ HostsDuplicate host e)) ∧
    (e.EffectTag = FGameplayTag.EmptyTag →
      (Tick host e DeltaTime).1.bHasStarted = true ∧
      (Tick host e DeltaTime).2 = activationCalls e) := by
  have hg : CheckMustHaveTags host e = true ∧ CheckMustNotHaveTags host e = true := by
    simpa [GatePasses] using hGate
  have hg' : (!CheckMustHaveTags host e || !CheckMustNotHaveTags host e) = false := by
    simp [hg.1, hg.2]
  have hper : TickPeriodicEffects e DeltaTime = (e, []) :=
    TickPeriodicEffects_of_not_started e DeltaTime (by rw [hState]; simp)
  have htick : Tick host e DeltaTime = CheckState host e := by
    rw [Tick_of_gate_passes host e DeltaTime hg', hper]
    simp
  have hact : ¬ HostsDuplicate host e →
      (Tick host e DeltaTime).1.bHasStarted = true ∧
      (Tick host e DeltaTime).2 = activationCalls e := by
    intro hd
    have hdup : DuplicateEffectAlreadyApplied host e = false := by
      cases h : DuplicateEffectAlreadyApplied host e
      · rfl
      · exact absurd ((DuplicateEffectAlreadyApplied_iff host e).1 h) hd
    rw [htick, CheckState_of_activated host e hState hTime (by simp [hg.1, hg.2, hdup])]
    exact ⟨rfl, rfl⟩
  have hsup : HostsDuplicate host e →
      (Tick host e DeltaTime).1.CurrentState = EEffectState.Ended ∧
      (Tick host e DeltaTime).1.bHasStarted = e.bHasStarted ∧
      (Tick host e DeltaTime).2 = [] := by
    intro hd
    have hdup := (DuplicateEffectAlreadyApplied_iff host e).2 hd
    rw [htick, CheckState_of_rejected host e hState hTime (by simp [hdup])]
    exact ⟨rfl, rfl, rfl⟩
  refine ⟨hact, hsup, ?_, ?_⟩
  · intro hb
    constructor
    · intro hs hd
      rw [(hsup hd).2.1, hb] at hs
      cases hs
    · intro hd
      exact (hact hd).1
  · intro he
    exact hact (fun hd => hd.1 he)

/-- C10, at the tagged sample effect on an owner that hosts a started effect
with the same tag: activation is suppressed. -/
theorem C10_duplicate_suppresses_activation_witness :
    (Tick sampleHostBurning sampleTagged 1).1.CurrentState = EEffectState.Ended ∧
    (Tick sampleHostBurning sampleTagged 1).1.bHasStarted = sampleTagged.bHasStarted ∧
    (Tick sampleHostBurning sampleTagged 1).2 = [] :=
  (C10_duplicate_suppresses_activation sampleHostBurning sampleTagged 1
    (by decide) (by decide) (by decide)).2.1
    ⟨by decide, (1, { sampleRunning with EffectTag := tagBurning }), by decide, by decide,
      by decide⟩

/-- C11: an Instant effect without period, initialised on an authority owner
with `bServerApplied` false while Initialized, is stamped `StartTime =
ActionTimer`; a tick with the gate passing, no duplicate hosted and
`ActionTimer >= StartTime` takes it from Initialized straight to Ended and
issues exactly one `AddActiveTag` per granted tag, one `GrantAbilityByTag` per
granted ability and one `ApplyAbilityEffectModifiers`; the next tick, whatever
the owner's state, issues exactly one `RemoveActiveTag` per granted tag and one
`RemoveGrantedAbilityByTag` per granted ability, no further
`ApplyAbilityEffectModifiers`, and leaves `bCompleted` true. -/
theorem C11_instant_effect_scenario (host0 host1 host2 : UGMC_AbilityComponent)
    (e0 e : UGMCAbilityEffect) (data : FGMCAbilityEffectData) (dt1 dt2 : ℚ)
    (hAuth : host0.HasAuthority = true)
    (hInit : InitializeEffect host0 e0 false data = some e)
    (hType : e0.EffectType = EEffectType.Instant) (hPeriod : e0.Period = 0)
    (hState : e0.CurrentState = EEffectState.Initialized)
    (hGate : GatePasses host1 e = true) (hDup : ¬ HostsDuplicate host1 e)
    (hTime : host1.ActionTimer ≥ e.StartTime) :
    e.StartTime = host0.ActionTimer ∧
    e.CurrentState = EEffectState.Initialized ∧
    (Tick host1 e dt1).1.CurrentState = EEffectState.Ended ∧
    (Tick host1 e dt1).2 =
      e.GrantedTags.map HostCall.AddActiveTag ++
        e.GrantedAbilities.map HostCall.GrantAbilityByTag ++
        [HostCall.ApplyAbilityEffectModifiers] ∧
    (Tick host2 (Tick host1 e dt1).1 dt2).2 =
      e.GrantedTags.map HostCall.RemoveActiveTag ++
        e.GrantedAbilities.map HostCall.RemoveGrantedAbilityByTag ∧
    (Tick host2 (Tick host1 e dt1).1 dt2).1.bCompleted = true ∧
    (Tick host2 (Tick host1 e dt1).1 dt2).1.CurrentState = EEffectState.Ended ∧
    countApply ((Tick host1 e dt1).2 ++ (Tick host2 (Tick host1 e dt1).1 dt2).2) = 1 := by
  obtain ⟨fT, fP, _, fS, _, _, _, _, _, _, _, _⟩ :=
    InitializeEffect_frame host0 e0 e false data hInit
  have hT : e.EffectType = EEffectType.Instant := by rw [fT, hType]
  have hP : e.Period = 0 := by rw [fP, hPeriod]
  have hS : e.CurrentState = EEffectState.Initialized := by rw [fS, hState]
  have hStart : e.StartTime = host0.ActionTimer := by
    obtain ⟨mods, _, rfl⟩ := InitializeEffect_eq_some host0 e0 e false data hInit
    simp [StampTimes, hAuth]
  have h1 := Tick_of_activation host1 e dt1 hS hGate hTime hDup
  have hcalls1 : (Tick host1 e dt1).2 =
      e.GrantedTags.map HostCall.AddActiveTag ++
        e.GrantedAbilities.map HostCall.GrantAbilityByTag ++
        [HostCall.ApplyAbilityEffectModifiers] := by
    rw [h1]
    simp [activationCalls, AddTagsToOwner, AddAbilitiesToOwner, hP]
  have hst1 : (Tick host1 e dt1).1.CurrentState = EEffectState.Ended := by
    rw [h1]; simp [hT]
  have h2 := Tick_of_ended host2 (Tick host1 e dt1).1 dt2 hst1
  have hcalls2 : (Tick host2 (Tick host1 e dt1).1 dt2).2 =
      e.GrantedTags.map HostCall.RemoveActiveTag ++
        e.GrantedAbilities.map HostCall.RemoveGrantedAbilityByTag := by
    rw [h2, EndEffect_eq, h1]
    simp [teardownCalls, RemoveTagsFromOwner, RemoveAbilitiesFromOwner, hT]
  refine ⟨hStart, hS, hst1, hcalls1, hcalls2, ?_, ?_, ?_⟩
  · rw [h2]
  · rw [h2]; exact EndEffect_state _
  · rw [hcalls1, hcalls2]
    rw [countApply_append, countApply_append, countApply_append, countApply_append,
      countApply_map_of_not_apply HostCall.AddActiveTag (fun _ => rfl),
      countApply_map_of_not_apply HostCall.GrantAbilityByTag (fun _ => rfl),
      countApply_map_of_not_apply HostCall.RemoveActiveTag (fun _ => rfl),
      countApply_map_of_not_apply HostCall.RemoveGrantedAbilityByTag (fun _ => rfl)]
    rfl

/-- C11, at the Instant sample effect initialised by the authority at time 5 and
ticked twice at that time. -/
theorem C11_instant_effect_scenario_witness :
    (Tick sampleHost sampleInstantStamped 1).2 =
      [HostCall.AddActiveTag tagBurning, HostCall.GrantAbilityByTag tagStunned,
        HostCall.ApplyAbilityEffectModifiers] ∧
    (Tick sampleHost (Tick sampleHost sampleInstantStamped 1).1 1).2 =
      [HostCall.RemoveActiveTag tagBurning, HostCall.RemoveGrantedAbilityByTag tagStunned] ∧
    (Tick sampleHost (Tick sampleHost sampleInstantStamped 1).1 1).1.bCompleted = true :=
  have h := C11_instant_effect_scenario sampleHost sampleHost sampleHost
    sampleInstant sampleInstantStamped FGMCAbilityEffectData.Default 1 1
    (by decide) (by decide!) (by decide) (by decide) (by decide) (by decide)
    (fun hd => hd.1 (by decide)) (by decide)
  ⟨h.2.2.2.1, h.2.2.2.2.1, h.2.2.2.2.2.1⟩

/-- C12: when a must-have tag is not active on the owner as a tick begins, an
effect with `bHasStarted` true (in any state, in particular Started) ends that
tick with `CurrentState` Ended and `bCompleted` true, and the tick issues
exactly the teardown calls: `RemoveActiveTag` once for each entry of
`GrantedTags` and `RemoveGrantedAbilityByTag` once for each entry of
`GrantedAbilities`. -/
theorem C12_must_have_removed (host : UGMC_AbilityComponent) (e : UGMCAbilityEffect)
    (DeltaTime : ℚ) (hStarted : e.bHasStarted = true)
    (hTag : ∃ t ∈ e.MustHaveTags, host.HasActiveTag t = false) :
    (Tick host e DeltaTime).1.CurrentState = EEffectState.Ended ∧
    (Tick host e DeltaTime).1.bCompleted = true ∧
    (Tick host e DeltaTime).2 =
      e.GrantedTags.map HostCall.RemoveActiveTag ++
        e.GrantedAbilities.map HostCall.RemoveGrantedAbilityByTag ++
        (if e.EffectType ≠ EEffectType.Instant ∧ e.Period = 0
          then [HostCall.RemoveActiveAbilityModifiers] else []) ∧
    (∀ t, List.count (HostCall.RemoveActiveTag t) (Tick host e DeltaTime).2
      = List.count t e.GrantedTags) ∧
    (∀ t, List.count (HostCall.RemoveGrantedAbilityByTag t) (Tick host e DeltaTime).2
      = List.count t e.GrantedAbilities) := by
  have hcalls : (Tick host e DeltaTime).2 =
      e.GrantedTags.map HostCall.RemoveActiveTag ++
        e.GrantedAbilities.map HostCall.RemoveGrantedAbilityByTag ++
        (if e.EffectType ≠ EEffectType.Instant ∧ e.Period = 0
          then [HostCall.RemoveActiveAbilityModifiers] else []) := by
    rw [Tick_of_gate_fails host e DeltaTime ((gate_fails_iff host e).1 (Or.inl hTag)),
      EndEffect_eq]
    simp [UpdateState, hStarted, teardownCalls, RemoveTagsFromOwner, RemoveAbilitiesFromOwner]
  have hinjT : Function.Injective HostCall.RemoveActiveTag := fun a b h => by
    injection h
  have hinjA : Function.Injective HostCall.RemoveGrantedAbilityByTag := fun a b h => by
    injection h
  refine ⟨?_, ?_, hcalls, ?_, ?_⟩
  · rw [Tick_of_gate_fails host e DeltaTime ((gate_fails_iff host e).1 (Or.inl hTag))]
    exact EndEffect_state _
  · rw [Tick_of_gate_fails host e DeltaTime ((gate_fails_iff host e).1 (Or.inl hTag))]
  · intro t
    rw [hcalls, List.count_append, List.count_append,
      List.count_map_of_injective _ _ hinjT]
    have h1 : List.count (HostCall.RemoveActiveTag t)
        (e.GrantedAbilities.map HostCall.RemoveGrantedAbilityByTag) = 0 := by
      rw [List.count_eq_zero]; simp
    have h2 : List.count (HostCall.RemoveActiveTag t)
        (if e.EffectType ≠ EEffectType.Instant ∧ e.Period = 0
          then [HostCall.RemoveActiveAbilityModifiers] else []) = 0 := by
      rw [List.count_eq_zero]; split <;> simp
    rw [h1, h2]
    simp
  · intro t
    rw [hcalls, List.count_append, List.count_append,
      List.count_map_of_injective _ _ hinjA]
    have h1 : List.count (HostCall.RemoveGrantedAbilityByTag t)
        (e.GrantedTags.map HostCall.RemoveActiveTag) = 0 := by
      rw [List.count_eq_zero]; simp
    have h2 : List.count (HostCall.RemoveGrantedAbilityByTag t)
        (if e.EffectType ≠ EEffectType.Instant ∧ e.Period = 0
          then [HostCall.RemoveActiveAbilityModifiers] else []) = 0 := by
      rw [List.count_eq_zero]; split <;> simp
    rw [h1, h2]
    simp

/-- C12, at the started sample effect that requires `tagStunned`, on an owner
without that tag. -/
theorem C12_must_have_removed_witness :
    (Tick sampleHost sampleGated 1).1.CurrentState = EEffectState.Ended ∧
    (Tick sampleHost sampleGated 1).1.bCompleted = true ∧
    List.count (HostCall.RemoveActiveTag tagBurning) (Tick sampleHost sampleGated 1).2 = 1 :=
  have h := C12_must_have_removed sampleHost sampleGated 1 (by decide)
    ⟨tagStunned, by decide, by decide⟩
  ⟨h.1, h.2.1, (h.2.2.2.1 tagBurning).trans (by decide)⟩

/-- C14: on an effect with `bHasStarted` false, in any state, `EndEffect` issues
no call and changes only `bCompleted` (to true) and `CurrentState` (to Ended);
`bHasStarted` stays false. -/
theorem C14_EndEffect_never_started (e : UGMCAbilityEffect) (h : e.bHasStarted = false) :
    (EndEffect e).2 = [] ∧
    (EndEffect e).1 = { e with bCompleted := true, CurrentState := EEffectState.Ended } ∧
    (EndEffect e).1.bHasStarted = false := by
  rw [EndEffect_eq]
  exact ⟨by simp [h], rfl, h⟩

/-- C14, at the fresh sample effect. -/
theorem C14_EndEffect_never_started_witness :
    (EndEffect sampleEffect).2 = [] ∧
    (EndEffect sampleEffect).1 =
      { sampleEffect with bCompleted := true, CurrentState := EEffectState.Ended } ∧
    (EndEffect sampleEffect).1.bHasStarted = false :=
  C14_EndEffect_never_started sampleEffect (by decide)

/-- C15: `EndEffect` issues `RemoveActiveAbilityModifiers` if and only if
`bHasStarted` is true, `EffectType` is not Instant and `Period = 0`, and then
once; for an Instant effect or an effect with a period it never does. -/
theorem C15_standing_modifiers_removed (e : UGMCAbilityEffect) :
    (HostCall.RemoveActiveAbilityModifiers ∈ (EndEffect e).2 ↔
      (e.bHasStarted = true ∧ e.EffectType ≠ EEffectType.Instant ∧ e.Period = 0)) ∧
    List.count HostCall.RemoveActiveAbilityModifiers (EndEffect e).2 ≤ 1 ∧
    (e.EffectType = EEffectType.Instant →
      HostCall.RemoveActiveAbilityModifiers ∉ (EndEffect e).2) ∧
    (e.Period ≠ 0 → HostCall.RemoveActiveAbilityModifiers ∉ (EndEffect e).2) := by
  have hiff : HostCall.RemoveActiveAbilityModifiers ∈ (EndEffect e).2 ↔
      (e.bHasStarted = true ∧ e.EffectType ≠ EEffectType.Instant ∧ e.Period = 0) := by
    rw [EndEffect_eq]
    cases hb : e.bHasStarted
    · simp
    · by_cases hc : e.EffectType ≠ EEffectType.Instant ∧ e.Period = 0
      · simp [teardownCalls, RemoveTagsFromOwner, RemoveAbilitiesFromOwner, hc]
      · simp only [teardownCalls, RemoveTagsFromOwner, RemoveAbilitiesFromOwner, hc]
        simp
  refine ⟨hiff, ?_, fun h hm => (hiff.1 hm).2.1 h, fun h hm => h (hiff.1 hm).2.2⟩
  rw [EndEffect_eq]
  dsimp only
  split
  · simp
  · unfold teardownCalls RemoveTagsFromOwner RemoveAbilitiesFromOwner
    rw [List.count_append, List.count_append]
    have h1 : List.count HostCall.RemoveActiveAbilityModifiers
        (e.GrantedTags.map HostCall.RemoveActiveTag) = 0 := by
      rw [List.count_eq_zero]; simp
    have h2 : List.count HostCall.RemoveActiveAbilityModifiers
        (e.GrantedAbilities.map HostCall.RemoveGrantedAbilityByTag) = 0 := by
      rw [List.count_eq_zero]; simp
    rw [h1, h2]
    split <;> simp

/-- C15, at the started Duration sample effect without period and at the
Instant sample effect. -/
theorem C15_standing_modifiers_removed_witness :
    HostCall.RemoveActiveAbilityModifiers ∈ (EndEffect sampleRunning).2 ∧
    HostCall.RemoveActiveAbilityModifiers ∉ (EndEffect sampleInstant).2 :=
  ⟨(C15_standing_modifiers_removed sampleRunning).1.2 (by decide),
    (C15_standing_modifiers_removed sampleInstant).2.2.1 (by decide)⟩

/-- C13 (amended): with `Duration >= 0`, after a completed `InitializeEffect`
`EndTime >= StartTime` holds on an owner with authority, and on an owner without
authority when the payload is the default one and `bServerApplied` is false; on
an owner without authority that adopts the payload it holds exactly when the
payload's `ServerEndTime >= ServerStartTime`. The call completes when the
payload does not overwrite or the pre-existing attribute names are distinct. -/
theorem C13_window_ordered (host : UGMC_AbilityComponent) (e : UGMCAbilityEffect)
    (bServerApplied : Bool) (data : FGMCAbilityEffectData) (hDur : 0 ≤ e.Duration) :
    ((data.bOverwriteExistingModifiers = false ∨
        (e.Modifiers.map (fun m => m.AttributeName)).Nodup) →
      ∃ e1, InitializeEffect host e bServerApplied data = some e1) ∧
    (∀ e1, InitializeEffect host e bServerApplied data = some e1 →
      (host.HasAuthority = true → e1.EndTime ≥ e1.StartTime) ∧
      (host.HasAuthority = false → data = FGMCAbilityEffectData.Default →
        bServerApplied = false → e1.EndTime ≥ e1.StartTime) ∧
      (host.HasAuthority = false →
        (data ≠ FGMCAbilityEffectData.Default ∨ bServerApplied = true) →
        (e1.EndTime ≥ e1.StartTime ↔ data.ServerEndTime ≥ data.ServerStartTime))) := by
  refine ⟨InitializeEffect_completes host e bServerApplied data, ?_⟩
  intro e1 hInit
  obtain ⟨mods, hm, rfl⟩ := InitializeEffect_eq_some host e e1 bServerApplied data hInit
  refine ⟨?_, ?_, ?_⟩
  · intro hAuth
    cases bServerApplied
    · simp only [StampTimes, hAuth, if_true]
      simp only [Bool.false_eq_true, if_false]
      show host.ActionTimer + e.Duration ≥ host.ActionTimer
      linarith
    · simp only [StampTimes, hAuth, if_true]
      show host.ActionTimer + e.Duration + 1 / 4 ≥ host.ActionTimer + 1 / 4
      linarith
  · intro hAuth hd hb
    subst hb
    simp only [StampTimes, hAuth, hd, Bool.false_eq_true, if_false, and_self, if_true]
    show host.ActionTimer + e.Duration ≥ host.ActionTimer
    linarith
  · intro hAuth hData
    have hcond : ¬ (data = FGMCAbilityEffectData.Default ∧ bServerApplied = false) := by
      rintro ⟨h1, h2⟩
      rcases hData with h | h
      · exact h h1
      · rw [h2] at h; cases h
    simp only [StampTimes, hAuth, hcond, Bool.false_eq_true, if_false]

/-- C13, at the sample effect (duration 10) stamped by the authority at time 5. -/
theorem C13_window_ordered_witness :
    (StampTimes sampleHost sampleEffect false samplePayload).EndTime
      ≥ (StampTimes sampleHost sampleEffect false samplePayload).StartTime :=
  ((C13_window_ordered sampleHost sampleEffect false samplePayload (by decide)).2
    (StampTimes sampleHost sampleEffect false samplePayload) rfl).1 (by decide)

/-- C13 as stated fails: a Duration effect of duration 10 initialised on an
owner without authority with a payload whose `ServerEndTime` 3 lies before its
`ServerStartTime` 7 ends with `EndTime < StartTime`. -/
theorem C13_counterexample :
    sampleEffect.EffectType = EEffectType.Duration ∧ sampleEffect.Duration ≥ 0 ∧
    InitializeEffect sampleClient sampleEffect false sampleReversedPayload =
      some (StampTimes sampleClient sampleEffect false sampleReversedPayload) ∧
    (StampTimes sampleClient sampleEffect false sampleReversedPayload).StartTime = 7 ∧
    (StampTimes sampleClient sampleEffect false sampleReversedPayload).EndTime = 3 ∧
    ¬ ((StampTimes sampleClient sampleEffect false sampleReversedPayload).EndTime
      ≥ (StampTimes sampleClient sampleEffect false sampleReversedPayload).StartTime) := by
  decide

/-- C16: `Tick` and `EndEffect`, and so every sequence of them, leave
`StartTime`, `EndTime` and `bServerConfirmed` unchanged, and a completed
`InitializeEffect` on an effect with `bServerConfirmed` true leaves it true. -/
theorem C16_stamp_is_frozen (host : UGMC_AbilityComponent) (e : UGMCAbilityEffect)
    (DeltaTime : ℚ) :
    ((Tick host e DeltaTime).1.StartTime = e.StartTime ∧
      (Tick host e DeltaTime).1.EndTime = e.EndTime ∧
      (Tick host e DeltaTime).1.bServerConfirmed = e.bServerConfirmed) ∧
    ((EndEffect e).1.StartTime = e.StartTime ∧ (EndEffect e).1.EndTime = e.EndTime ∧
      (EndEffect e).1.bServerConfirmed = e.bServerConfirmed) ∧
    (∀ calls : List LifecycleCall,
      (run e calls).1.StartTime = e.StartTime ∧ (run e calls).1.EndTime = e.EndTime ∧
      (run e calls).1.bServerConfirmed = e.bServerConfirmed) ∧
    (∀ (bServerApplied : Bool) (data : FGMCAbilityEffectData) (e1 : UGMCAbilityEffect),
      InitializeEffect host e bServerApplied data = some e1 →
      e.bServerConfirmed = true → e1.bServerConfirmed = true) := by
  refine ⟨Tick_stamp host e DeltaTime, EndEffect_frame e, run_stamp e, ?_⟩
  intro sa data e1 hInit hc
  obtain ⟨mods, _, rfl⟩ := InitializeEffect_eq_some host e e1 sa data hInit
  exact StampTimes_confirmed host _ sa data hc

/-- C16, at a confirmed effect initialised again on a client with the default payload. -/
theorem C16_stamp_is_frozen_witness :
    (StampTimes sampleClient sampleInstantStamped false
      FGMCAbilityEffectData.Default).bServerConfirmed = true :=
  (C16_stamp_is_frozen sampleClient sampleInstantStamped 1).2.2.2 false
    FGMCAbilityEffectData.Default
    (StampTimes sampleClient sampleInstantStamped false FGMCAbilityEffectData.Default)
    rfl (by decide)

/-- C17: one tick of a Started effect with `Period > 0` whose gate passes
invokes `ApplyAbilityEffectModifiers` at most once: exactly once when
`PeriodicApplicationTimer + DeltaTime >= Period`, and the timer is then 0
whatever the overshoot; not at all otherwise, and the timer has then grown by
`DeltaTime`. After the tick the timer is below `Period`, and not negative when
it was not negative before and `DeltaTime >= 0`; so along any sequence of such
ticks with non-negative deltas, from a non-negative timer,
`0 <= PeriodicApplicationTimer < Period` holds after every tick. -/
theorem C17_periodic_tick (host : UGMC_AbilityComponent) (e : UGMCAbilityEffect)
    (DeltaTime : ℚ) (hState : e.CurrentState = EEffectState.Started)
    (hPeriod : 0 < e.Period) (hGate : GatePasses host e = true) :
    countApply (Tick host e DeltaTime).2 ≤ 1 ∧
    (e.PeriodicApplicationTimer + DeltaTime ≥ e.Period →
      countApply (Tick host e DeltaTime).2 = 1 ∧
      (Tick host e DeltaTime).1.PeriodicApplicationTimer = 0) ∧
    (¬ e.PeriodicApplicationTimer + DeltaTime ≥ e.Period →
      (Tick host e DeltaTime).2 = [] ∧
      (Tick host e DeltaTime).1.PeriodicApplicationTimer
        = e.PeriodicApplicationTimer + DeltaTime) ∧
    (Tick host e DeltaTime).1.PeriodicApplicationTimer < e.Period ∧
    (0 ≤ e.PeriodicApplicationTimer → 0 ≤ DeltaTime →
      0 ≤ (Tick host e DeltaTime).1.PeriodicApplicationTimer) ∧
    (∀ ticks : List (UGMC_AbilityComponent × ℚ), ticks ≠ [] →
      0 ≤ e.PeriodicApplicationTimer →
      (∀ n p, ticks[n]? = some p →
        (runTicks e (ticks.take n)).1.CurrentState = EEffectState.Started ∧
        GatePasses p.1 (runTicks e (ticks.take n)).1 = true ∧ 0 ≤ p.2) →
      0 ≤ (runTicks e ticks).1.PeriodicApplicationTimer ∧
      (runTicks e ticks).1.PeriodicApplicationTimer < e.Period) := by
  obtain ⟨hc, ht, _⟩ :=
    Tick_of_started_periodic host e DeltaTime hState (ne_of_gt hPeriod) hGate
  rw [hc, ht]
  refine ⟨?_, ?_, ?_, ?_, ?_, ?_⟩
  · split
    · exact Nat.le_refl _
    · exact Nat.zero_le _
  · intro hf
    rw [if_pos hf, if_pos hf]
    exact ⟨rfl, rfl⟩
  · intro hf
    rw [if_neg hf, if_neg hf]
    exact ⟨rfl, rfl⟩
  · split
    · exact hPeriod
    · rename_i hf
      exact lt_of_not_ge hf
  · intro h0 hd
    split
    · exact le_refl _
    · linarith
  · intro ticks hne h0 hsuch
    obtain ⟨_, h1, h2⟩ := timer_bounds e ticks hPeriod h0 hsuch
    exact ⟨h1, h2 hne⟩

/-- C17, at the periodic sample effect (period 1): a tick of delta 3 applies
once and leaves the timer at 0. -/
theorem C17_periodic_tick_witness :
    countApply (Tick sampleHost samplePeriodic 3).2 = 1 ∧
    (Tick sampleHost samplePeriodic 3).1.PeriodicApplicationTimer = 0 :=
  (C17_periodic_tick sampleHost samplePeriodic 3 (by decide) (by decide)
    (by decide)).2.1 (by decide!)

/-- C18: one tick of a Started Duration effect whose gate passes ends with
`CurrentState` Ended if and only if the owner's `ActionTimer >= EndTime`, and
with Started otherwise; in both cases it issues no revoke call and leaves
`bCompleted` unchanged; when it ends in Ended, the next tick, whatever the
owner's state, sets `bCompleted`. -/
theorem C18_duration_expiry (host : UGMC_AbilityComponent) (e : UGMCAbilityEffect)
    (DeltaTime : ℚ) (hType : e.EffectType = EEffectType.Duration)
    (hState : e.CurrentState = EEffectState.Started) (hGate : GatePasses host e = true) :
    ((Tick host e DeltaTime).1.CurrentState = EEffectState.Ended ↔
      host.ActionTimer ≥ e.EndTime) ∧
    (¬ host.ActionTimer ≥ e.EndTime →
      (Tick host e DeltaTime).1.CurrentState = EEffectState.Started) ∧
    (∀ c ∈ (Tick host e DeltaTime).2, c.isRevoke = false) ∧
    (Tick host e DeltaTime).1.bCompleted = e.bCompleted ∧
    (host.ActionTimer ≥ e.EndTime → ∀ (host2 : UGMC_AbilityComponent) (dt2 : ℚ),
      (Tick host2 (Tick host e DeltaTime).1 dt2).1.bCompleted = true) := by
  have htick := Tick_of_gate_passes host e DeltaTime ((gate_passes_iff host e).1 hGate)
  obtain ⟨t, hfr, hcalls⟩ := TickPeriodicEffects_frame e DeltaTime
  have hst : (TickPeriodicEffects e DeltaTime).1.CurrentState = EEffectState.Started := by
    rw [TickPeriodicEffects_state, hState]
  obtain ⟨h1, _, _, h4, h5⟩ := CheckState_of_started_timer host _ hst
  have hty : (TickPeriodicEffects e DeltaTime).1.EffectType = EEffectType.Duration := by
    rw [hfr]; exact hType
  have hend : (TickPeriodicEffects e DeltaTime).1.EndTime = e.EndTime := by rw [hfr]
  have hco : (TickPeriodicEffects e DeltaTime).1.bCompleted = e.bCompleted := by rw [hfr]
  have hstate : (Tick host e DeltaTime).1.CurrentState =
      if host.ActionTimer ≥ e.EndTime then EEffectState.Ended else EEffectState.Started := by
    rw [htick]
    show (CheckState host (TickPeriodicEffects e DeltaTime).1).1.CurrentState = _
    rw [h5, hend]
    simp [hty]
  have hiff : (Tick host e DeltaTime).1.CurrentState = EEffectState.Ended ↔
      host.ActionTimer ≥ e.EndTime := by
    rw [hstate]
    by_cases h : host.ActionTimer ≥ e.EndTime <;> simp [h]
  refine ⟨hiff, ?_, ?_, ?_, ?_⟩
  · intro h
    rw [hstate, if_neg h]
  · intro c hc
    rw [htick] at hc
    dsimp only at hc
    rw [h1, List.append_nil] at hc
    rcases hcalls with h | h
    · rw [h] at hc; cases hc
    · rw [h] at hc
      simp only [List.mem_singleton] at hc
      subst hc
      rfl
  · rw [htick]
    show (CheckState host (TickPeriodicEffects e DeltaTime).1).1.bCompleted = _
    rw [h4, hco]
  · intro h host2 dt2
    rw [Tick_of_ended host2 _ dt2 (hiff.2 h)]

/-- C18, at the started sample effect (`EndTime` 10) ticked at time 20. -/
theorem C18_duration_expiry_witness :
    (Tick sampleHostLate sampleRunning 1).1.CurrentState = EEffectState.Ended ∧
    (Tick sampleHostLate sampleRunning 1).1.bCompleted = false :=
  have h := C18_duration_expiry sampleHostLate sampleRunning 1 (by decide) (by decide)
    (by decide)
  ⟨h.1.2 (by decide), h.2.2.2.1.trans (by decide)⟩

/-- C19, the code at a failing input: with two pre-existing modifiers of
attribute 1 and a payload overwriting attribute 1, the indices collected are 0
and 1; `RemoveAt(0)` leaves one modifier, so `RemoveAt(1)` is out of range and
`InitializeEffect` does not complete. -/
theorem C19_failing_input :
    ExistingModifiersToRemove 1 0 sampleTwin.Modifiers = [0, 1] ∧
    TArray.RemoveAt sampleTwin.Modifiers 0 = some [⟨1, 6⟩] ∧
    TArray.RemoveAt ([⟨1, 6⟩] : List FGMCAttributeModifier) 1 = none ∧
    PurgeModifiers sampleTwin.Modifiers [0, 1] = none ∧
    InitializeEffect sampleHost sampleTwin false sampleOverwrite = none := by
  decide

/-- C20: an Instant effect with `Period != 0` that begins Initialized never
reaches Started and never has `ApplyAbilityEffectModifiers` invoked for it,
whatever the sequence of `Tick` and `EndEffect` calls and the owner's states. -/
theorem C20_instant_periodic_never_applies (e : UGMCAbilityEffect)
    (calls : List LifecycleCall) (hType : e.EffectType = EEffectType.Instant)
    (hPeriod : e.Period ≠ 0) (hState : e.CurrentState = EEffectState.Initialized) :
    countApply (run e calls).2 = 0 ∧
    HostCall.ApplyAbilityEffectModifiers ∉ (run e calls).2 ∧
    (run e calls).1.CurrentState ≠ EEffectState.Started := by
  obtain ⟨_, _, h3, h4⟩ :=
    run_instant_periodic e calls hType hPeriod (by rw [hState]; simp)
  refine ⟨h4, ?_, h3⟩
  intro hmem
  unfold countApply at h4
  rw [List.countP_eq_zero] at h4
  exact absurd (h4 _ hmem) (by simp [HostCall.isApply])

/-- C20, at the Instant sample effect with period 1: started and torn down by
two ticks of delta 3 without any `ApplyAbilityEffectModifiers`. -/
theorem C20_instant_periodic_never_applies_witness :
    countApply (run sampleInstantPeriodic
      [LifecycleCall.Tick sampleHost 3, LifecycleCall.Tick sampleHost 3]).2 = 0 :=
  (C20_instant_periodic_never_applies sampleInstantPeriodic
    [LifecycleCall.Tick sampleHost 3, LifecycleCall.Tick sampleHost 3]
    (by decide) (by decide) (by decide)).1

end GMCAbilitySystem
